import Mathlib

/-!
Verification development for the Lucendex quote engine
(`backend/internal/router` and `backend/internal/kv`).

Shallow embedding conventions, used throughout:

* `decimal.Decimal` (shopspring) is modelled as `ℚ` with exact arithmetic.
  The library's `Div` rounds to 16 decimal places; that rounding is not
  modelled — quantities compared against thresholds or reserves are exact
  rationals here.
* Go `time.Time` / `time.Duration` values are modelled as `ℚ` seconds,
  passed explicitly (`now` parameters) where the source calls `time.Now()`.
* Go maps used by the source are modelled as association lists; every use
  in the source is either keyed lookup/insert or an iteration whose result
  is order-independent (counting, set-of-keys deletion).
* Byte strings are modelled as `String` (valid UTF-8); Go `len` on strings
  is UTF-8 byte length.
-/

namespace Lucendex

/-! ### Data model (`router/types.go`) -/

/-- Model of `router.Asset`: a `(Currency, Issuer)` pair. -/
structure Asset where
  currency : String
  issuer : String
deriving DecidableEq, Repr

/-- Model of `Asset.String()`: `Currency` when the issuer is empty,
otherwise `Currency + "." + Issuer`. -/
def Asset.string (a : Asset) : String :=
  if a.issuer = "" then a.currency else a.currency ++ "." ++ a.issuer

/-- Model of `router.QuoteRequest`. -/
structure QuoteRequest where
  inAsset : Asset
  outAsset : Asset
  amount : ℚ
deriving DecidableEq, Repr

/-- Model of `router.AMMPool` (the fields the pathfinder reads). -/
structure AMMPool where
  asset1 : Asset
  asset2 : Asset
  asset1Reserve : ℚ
  asset2Reserve : ℚ
  tradingFeeBps : ℤ
deriving DecidableEq, Repr

/-- Model of `router.Offer` (the fields the pathfinder reads). -/
structure Offer where
  takerPays : Asset
  takerGets : Asset
  quality : ℚ
deriving DecidableEq, Repr

/-- Model of `router.Hop`. -/
structure Hop where
  type : String
  inAsset : Asset
  outAsset : Asset
  amountIn : ℚ
  amountOut : ℚ
deriving DecidableEq, Repr

/-- Model of `router.Route` (the pathfinder only fills `Hops`). -/
structure Route where
  hops : List Hop
deriving DecidableEq, Repr

/-- Model of the sentinel errors in `router/errors.go`. -/
inductive RouterErr where
  | invalidAmount
  | amountTooLarge
  | invalidAsset
  | sameAssets
  | invalidAddress
  | noRoute
  | insufficientLiquidity
  | circuitBreakerOpen
deriving DecidableEq, Repr

/-! ### Validator (`router/validator.go`) -/

/-- Character class `[1-9A-HJ-NP-Za-km-z]` of `xrplAddressRegex`. -/
def isBase58Char (c : Char) : Bool :=
  (decide ('1' ≤ c) && decide (c ≤ '9')) ||
  (decide ('A' ≤ c) && decide (c ≤ 'H')) ||
  (decide ('J' ≤ c) && decide (c ≤ 'N')) ||
  (decide ('P' ≤ c) && decide (c ≤ 'Z')) ||
  (decide ('a' ≤ c) && decide (c ≤ 'k')) ||
  (decide ('m' ≤ c) && decide (c ≤ 'z'))

/-- Model of `xrplAddressRegex.MatchString` with the anchored pattern
`^r[1-9A-HJ-NP-Za-km-z]{24,34}$`. -/
def xrplAddressMatch (s : String) : Bool :=
  match s.data with
  | [] => false
  | c :: rest =>
    decide (c = 'r') && rest.all isBase58Char &&
    decide (24 ≤ rest.length) && decide (rest.length ≤ 34)

/-- Character class `[A-Z0-9]` of `currencyRegex`. -/
def isCurrencyChar (c : Char) : Bool :=
  (decide ('A' ≤ c) && decide (c ≤ 'Z')) || (decide ('0' ≤ c) && decide (c ≤ '9'))

/-- Model of `currencyRegex.MatchString` with the anchored pattern
`^[A-Z0-9]{3,40}$`. -/
def currencyMatch (s : String) : Bool :=
  s.data.all isCurrencyChar && decide (3 ≤ s.data.length) && decide (s.data.length ≤ 40)

/-- Model of Go `unicode.IsSpace` (the rune set trimmed by
`strings.TrimSpace`). -/
def goIsSpace (c : Char) : Bool :=
  c = '\t' || c.toNat = 10 || c.toNat = 11 || c.toNat = 12 || c.toNat = 13 ||
  c = ' ' || c.toNat = 0x85 || c.toNat = 0xA0 || c.toNat = 0x1680 ||
  (0x2000 ≤ c.toNat && c.toNat ≤ 0x200A) ||
  c.toNat = 0x2028 || c.toNat = 0x2029 || c.toNat = 0x202F ||
  c.toNat = 0x205F || c.toNat = 0x3000

/-- Model of `strings.TrimSpace`. -/
def goTrimSpace (s : String) : String :=
  ⟨((s.data.dropWhile goIsSpace).reverse.dropWhile goIsSpace).reverse⟩

/-- Model of `Validator.IsValidXRPLAddress`: reject the empty string, trim
whitespace, then match the address pattern. -/
def isValidXRPLAddress (address : String) : Bool :=
  if address = "" then false
  else xrplAddressMatch (goTrimSpace address)

/-- Model of `Validator.ValidateAsset`. `none` means the asset is admitted. -/
def validateAsset (a : Asset) : Option RouterErr :=
  if a.currency = "" then some .invalidAsset
  else if a.currency = "XRP" then
    if a.issuer ≠ "" then some .invalidAsset else none
  else if ¬ currencyMatch a.currency then some .invalidAsset
  else if a.issuer = "" then some .invalidAsset
  else if ¬ isValidXRPLAddress a.issuer then some .invalidAddress
  else none

/-- Model of `Validator.ValidateQuoteRequest`. `none` means admitted. -/
def validateQuoteRequest (r : QuoteRequest) : Option RouterErr :=
  if r.amount ≤ 0 then some .invalidAmount
  else if r.amount > (10 ^ 18 : ℚ) then some .amountTooLarge
  else match validateAsset r.inAsset with
  | some e => some e
  | none =>
    match validateAsset r.outAsset with
    | some e => some e
    | none =>
      if r.inAsset.string = r.outAsset.string then some .sameAssets else none

/-- Per-asset check as worded by the specification (§4.1) and claim C9:
`InvalidAsset` on structural errors (empty or malformed currency, wrong
issuer presence), `InvalidAddress` when the (whitespace-trimmed) issuer
fails the address pattern. -/
def specValidateAsset (a : Asset) : Option RouterErr :=
  if a.currency = "" then some .invalidAsset
  else if a.currency = "XRP" then
    if a.issuer = "" then none else some .invalidAsset
  else if ¬ currencyMatch a.currency ∨ a.issuer = "" then some .invalidAsset
  else if ¬ xrplAddressMatch (goTrimSpace a.issuer) then some .invalidAddress
  else none

/-- Request validation as worded by the specification (§4.1): the checks in
order, failing on the first violation. -/
def specValidateQuoteRequest (r : QuoteRequest) : Option RouterErr :=
  if r.amount ≤ 0 then some .invalidAmount
  else if r.amount > (10 ^ 18 : ℚ) then some .amountTooLarge
  else match specValidateAsset r.inAsset with
  | some e => some e
  | none =>
    match specValidateAsset r.outAsset with
    | some e => some e
    | none =>
      if r.inAsset.string = r.outAsset.string then some .sameAssets else none

theorem validateAsset_eq_spec (a : Asset) : validateAsset a = specValidateAsset a := by
  unfold validateAsset specValidateAsset isValidXRPLAddress
  by_cases h1 : a.currency = "" <;>
    by_cases h2 : a.currency = "XRP" <;>
    by_cases h3 : a.issuer = "" <;>
    by_cases h4 : currencyMatch a.currency <;>
    simp [h1, h2, h3, h4]

/-- Claim C9: the validator applies its checks in the order amount-positive,
amount-bound, input asset, output asset, same-asset, returning on the first
violation the stated rejection kind; asset checks classify structural errors
as `InvalidAsset` and address-pattern failures (after whitespace trimming)
as `InvalidAddress`; same-asset compares canonical strings; a request
violating no check is admitted. -/
theorem C9_validator_matches_spec (r : QuoteRequest) :
    validateQuoteRequest r = specValidateQuoteRequest r := by
  unfold validateQuoteRequest specValidateQuoteRequest
  rw [validateAsset_eq_spec, validateAsset_eq_spec]

/-! ### AMM output (`router/breaker.go`, `Pathfinder.calculateAMMOutput`) -/

/-- Model of `Pathfinder.calculateAMMOutput`: select reserves by direction,
apply the fee multiplier `1 - fee_bps/10_000` to the input, then the
constant-product output `(x'·R_out)/(R_in + x')`. -/
def calculateAMMOutput (pool : AMMPool) (amountIn : ℚ) (asset1ToAsset2 : Bool) : ℚ :=
  let reserveIn := if asset1ToAsset2 then pool.asset1Reserve else pool.asset2Reserve
  let reserveOut := if asset1ToAsset2 then pool.asset2Reserve else pool.asset1Reserve
  let feeMultiplier : ℚ := 1 - (pool.tradingFeeBps : ℚ) / 10000
  let amountInAfterFee := amountIn * feeMultiplier
  (amountInAfterFee * reserveOut) / (reserveIn + amountInAfterFee)

/-- Constant-product output with a pre-applied fee multiplier `m`, the
arithmetic core of `calculateAMMOutput`. -/
def constantProductOut (rIn rOut m x : ℚ) : ℚ :=
  (x * m * rOut) / (rIn + x * m)

theorem calculateAMMOutput_eq (pool : AMMPool) (x : ℚ) (b : Bool) :
    calculateAMMOutput pool x b =
      constantProductOut (if b then pool.asset1Reserve else pool.asset2Reserve)
        (if b then pool.asset2Reserve else pool.asset1Reserve)
        (1 - (pool.tradingFeeBps : ℚ) / 10000) x := rfl

theorem constantProductOut_strictMono_input (rIn rOut m x1 x2 : ℚ)
    (hIn : 0 < rIn) (hOut : 0 < rOut) (hm : 0 < m) (hx1 : 0 < x1) (hx : x1 < x2) :
    constantProductOut rIn rOut m x1 < constantProductOut rIn rOut m x2 := by
  unfold constantProductOut
  have hd1 : 0 < rIn + x1 * m := by positivity
  have hd2 : 0 < rIn + x2 * m := by nlinarith
  rw [div_lt_div_iff hd1 hd2]
  nlinarith [mul_pos hm hOut, mul_pos (mul_pos hm hOut) hIn]

theorem constantProductOut_strictAnti_fee (rIn rOut m1 m2 x : ℚ)
    (hIn : 0 < rIn) (hOut : 0 < rOut) (hx : 0 < x) (hm2 : 0 ≤ m2) (hm : m2 < m1) :
    constantProductOut rIn rOut m2 x < constantProductOut rIn rOut m1 x := by
  unfold constantProductOut
  have hd2 : 0 < rIn + x * m2 := by nlinarith
  have hd1 : 0 < rIn + x * m1 := by nlinarith
  rw [div_lt_div_iff hd2 hd1]
  nlinarith [mul_pos hx hOut, mul_pos (mul_pos hx hOut) hIn]

/-- Claim C3 as amended: for a pool with strictly positive reserves, the AMM
output equals `(x·(1 - fee/10000)·R_out)/(R_in + x·(1 - fee/10000))` in both
directions; it is strictly increasing in the input amount provided
`fee_bps < 10_000` (at `fee_bps = 10_000` the output is constantly zero);
and for a fixed positive input it is strictly decreasing in `fee_bps` on
`0 ≤ fee_bps ≤ 10_000`. -/
theorem C3_amm_output_amended :
    (∀ (pool : AMMPool) (x : ℚ), calculateAMMOutput pool x true =
      (x * (1 - (pool.tradingFeeBps : ℚ) / 10000) * pool.asset2Reserve) /
        (pool.asset1Reserve + x * (1 - (pool.tradingFeeBps : ℚ) / 10000))) ∧
    (∀ (pool : AMMPool) (x : ℚ), calculateAMMOutput pool x false =
      (x * (1 - (pool.tradingFeeBps : ℚ) / 10000) * pool.asset1Reserve) /
        (pool.asset2Reserve + x * (1 - (pool.tradingFeeBps : ℚ) / 10000))) ∧
    (∀ (pool : AMMPool) (b : Bool) (x1 x2 : ℚ),
      0 < pool.asset1Reserve → 0 < pool.asset2Reserve →
      pool.tradingFeeBps < 10000 → 0 < x1 → x1 < x2 →
      calculateAMMOutput pool x1 b < calculateAMMOutput pool x2 b) ∧
    (∀ (p1 p2 : AMMPool) (b : Bool) (x : ℚ),
      0 < p1.asset1Reserve → 0 < p1.asset2Reserve →
      p1.asset1Reserve = p2.asset1Reserve → p1.asset2Reserve = p2.asset2Reserve →
      p1.tradingFeeBps < p2.tradingFeeBps → p2.tradingFeeBps ≤ 10000 → 0 < x →
      calculateAMMOutput p2 x b < calculateAMMOutput p1 x b) := by
  refine ⟨fun pool x => rfl, fun pool x => rfl, ?_, ?_⟩
  · intro pool b x1 x2 h1 h2 hf hx1 hx
    rw [calculateAMMOutput_eq, calculateAMMOutput_eq]
    have hm : 0 < 1 - (pool.tradingFeeBps : ℚ) / 10000 := by
      have : (pool.tradingFeeBps : ℚ) < 10000 := by exact_mod_cast hf
      linarith
    cases b <;>
      exact constantProductOut_strictMono_input _ _ _ _ _ (by assumption) (by assumption) hm hx1 hx
  · intro p1 p2 b x h1 h2 hr1 hr2 hf hf2 hx
    rw [calculateAMMOutput_eq, calculateAMMOutput_eq, ← hr1, ← hr2]
    have hm2 : 0 ≤ 1 - (p2.tradingFeeBps : ℚ) / 10000 := by
      have : (p2.tradingFeeBps : ℚ) ≤ 10000 := by exact_mod_cast hf2
      linarith
    have hm : 1 - (p2.tradingFeeBps : ℚ) / 10000 < 1 - (p1.tradingFeeBps : ℚ) / 10000 := by
      have : (p1.tradingFeeBps : ℚ) < (p2.tradingFeeBps : ℚ) := by exact_mod_cast hf
      linarith
    cases b <;>
      exact constantProductOut_strictAnti_fee _ _ _ _ _ (by assumption) (by assumption) hx hm2 hm

/-- Concrete pool with `fee_bps = 10_000` refuting claim C3 as stated. -/
def poolFullFee : AMMPool :=
  { asset1 := ⟨"XRP", ""⟩, asset2 := ⟨"USD", "rIssuer"⟩
    asset1Reserve := 1, asset2Reserve := 1, tradingFeeBps := 10000 }

/-- Counterexample to claim C3 as stated: with `fee_bps = 10_000` (allowed
by the stated bound `0 ≤ fee_bps ≤ 10_000`), both reserves 1 and inputs
`1 < 2`, the output is 0 at both inputs, so it is not strictly increasing
in the input amount. -/
theorem C3_counterexample :
    (0 : ℚ) < poolFullFee.asset1Reserve ∧ (0 : ℚ) < poolFullFee.asset2Reserve ∧
    (0 : ℤ) ≤ poolFullFee.tradingFeeBps ∧ poolFullFee.tradingFeeBps ≤ 10000 ∧
    (0 : ℚ) < 1 ∧ (1 : ℚ) < 2 ∧
    ¬ calculateAMMOutput poolFullFee 1 true < calculateAMMOutput poolFullFee 2 true := by
  refine ⟨by norm_num [poolFullFee], by norm_num [poolFullFee], by norm_num [poolFullFee],
    by norm_num [poolFullFee], by norm_num, by norm_num, ?_⟩
  show ¬ calculateAMMOutput poolFullFee 1 true < calculateAMMOutput poolFullFee 2 true
  norm_num [calculateAMMOutput, poolFullFee]

/-- Witness instantiating `C3_amm_output_amended` at a concrete pool
(reserves 10000 and 15000, `fee_bps = 30`) and inputs `100 < 200`. -/
theorem C3_amm_output_amended_witness :
    calculateAMMOutput ⟨⟨"XRP", ""⟩, ⟨"USD", "rIssuer"⟩, 10000, 15000, 30⟩ 100 true <
      calculateAMMOutput ⟨⟨"XRP", ""⟩, ⟨"USD", "rIssuer"⟩, 10000, 15000, 30⟩ 200 true :=
  C3_amm_output_amended.2.2.1 _ true 100 200 (by norm_num) (by norm_num) (by norm_num)
    (by norm_num) (by norm_num)

/-! ### Association lists, modelling the source's Go maps -/

/-- Keyed lookup in an association list (Go map read). -/
def alookup {α : Type} (l : List (String × α)) (k : String) : Option α :=
  match l with
  | [] => none
  | (k1, v) :: rest => if k1 = k then some v else alookup rest k

/-- Keyed insert/replace in an association list (Go map write). -/
def aset {α : Type} (l : List (String × α)) (k : String) (v : α) : List (String × α) :=
  match l with
  | [] => [(k, v)]
  | (k1, v1) :: rest => if k1 = k then (k, v) :: rest else (k1, v1) :: aset rest k v

/-- Keyed removal from an association list (Go map delete). -/
def adel {α : Type} (l : List (String × α)) (k : String) : List (String × α) :=
  match l with
  | [] => []
  | (k1, v1) :: rest => if k1 = k then rest else (k1, v1) :: adel rest k

theorem alookup_aset_self {α : Type} (l : List (String × α)) (k : String) (v : α) :
    alookup (aset l k v) k = some v := by
  induction l with
  | nil => simp [aset, alookup]
  | cons h rest ih =>
    obtain ⟨k1, v1⟩ := h
    by_cases hk : k1 = k <;> simp [aset, alookup, hk, ih]

theorem aset_lookup_self {α : Type} (l : List (String × α)) (k : String) (v : α)
    (h : alookup l k = some v) : aset l k v = l := by
  induction l with
  | nil => simp [alookup] at h
  | cons hd rest ih =>
    obtain ⟨k1, v1⟩ := hd
    by_cases hk : k1 = k
    · simp [alookup, hk] at h
      simp [aset, hk, h]
    · simp [alookup, hk] at h
      simp [aset, hk, ih h]

/-! ### Pathfinder (`router/breaker.go`, graph + Dijkstra + route build) -/

/-- `MaxHops = 3`. -/
def maxHops : ℕ := 3

/-- The `dist` initialization constant `math.MaxFloat64`, as an exact
rational. -/
def maxFloat64 : ℚ := (2 ^ 53 - 1) * 2 ^ 971

/-- Model of the pathfinder's `edge`: target node plus a back-reference to
the originating pool or offer by index into the snapshot. -/
structure DEdge where
  toA : String
  weight : ℚ
  pool : Option ℕ
  offer : Option ℕ
deriving DecidableEq, Repr

/-- Model of the priority-queue `node` (the `index` bookkeeping field of
`container/heap` does not affect behaviour and is omitted). -/
structure PQNode where
  asset : String
  cost : ℚ
deriving DecidableEq, Repr

/-- The queue ordering `priorityQueue.Less`: strictly smaller cost. -/
def pqLess (a b : PQNode) : Bool := decide (a.cost < b.cost)

/-- List read with a default node. -/
def nget (l : List PQNode) (i : ℕ) : PQNode := l.getD i ⟨"", 0⟩

/-- `priorityQueue.Swap`. -/
def nswap (l : List PQNode) (i j : ℕ) : List PQNode := (l.set i (nget l j)).set j (nget l i)

/-- `container/heap` sift-up (`up`): bubble index `j` towards the root
while strictly smaller than its parent. The fuel only bounds the number of
iterations; `j + 1` always suffices since the index shrinks. -/
def heapUpF : ℕ → List PQNode → ℕ → List PQNode
  | 0, l, _ => l
  | fuel + 1, l, j =>
    if j = 0 then l
    else
      let i := (j - 1) / 2
      if pqLess (nget l j) (nget l i) then heapUpF fuel (nswap l i j) i else l

/-- `container/heap` sift-down (`down`) restricted to the first `n`
elements; fuel `n + 1` always suffices. -/
def heapDownF : ℕ → List PQNode → ℕ → ℕ → List PQNode
  | 0, l, _, _ => l
  | fuel + 1, l, i, n =>
    let j1 := 2 * i + 1
    if j1 ≥ n then l
    else
      let j := if 2 * i + 2 < n ∧ pqLess (nget l (2 * i + 2)) (nget l j1) then 2 * i + 2 else j1
      if pqLess (nget l j) (nget l i) then heapDownF fuel (nswap l i j) j n else l

/-- `heap.Push`: append, then sift up from the last position. -/
def heapPush (l : List PQNode) (x : PQNode) : List PQNode :=
  heapUpF (l.length + 1) (l ++ [x]) l.length

/-- `heap.Pop`: swap the root with the last element, sift down over the
shortened prefix, and return the removed element with the rest. -/
def heapPop (l : List PQNode) : Option (PQNode × List PQNode) :=
  match l with
  | [] => none
  | _ :: _ =>
    let n := l.length - 1
    let l2 := nswap l 0 n
    let l3 := heapDownF (n + 1) l2 0 n
    some (nget l3 n, l3.take n)

/-- `graph[k] = append(graph[k], e)` on the adjacency map. -/
def assocAppend (g : List (String × List DEdge)) (k : String) (e : DEdge) :
    List (String × List DEdge) :=
  match g with
  | [] => [(k, [e])]
  | (k1, es) :: rest =>
    if k1 = k then (k1, es ++ [e]) :: rest else (k1, es) :: assocAppend rest k e

/-- Model of `Pathfinder.buildGraph`: two directed edges per pool with
weight `1 - fee_bps/10_000`, one directed edge per offer with weight
`quality`. -/
def buildGraph (pools : List AMMPool) (offers : List Offer) : List (String × List DEdge) :=
  let g1 := pools.enum.foldl (fun g ip =>
    let a1 := ip.2.asset1.string
    let a2 := ip.2.asset2.string
    let fm : ℚ := 1 - (ip.2.tradingFeeBps : ℚ) / 10000
    assocAppend (assocAppend g a1 ⟨a2, fm, some ip.1, none⟩) a2 ⟨a1, fm, some ip.1, none⟩) []
  offers.enum.foldl (fun g io =>
    assocAppend g io.2.takerPays.string ⟨io.2.takerGets.string, io.2.quality, none, some io.1⟩) g1

/-- Go map read `dist[k]` (zero value 0 for a missing key). -/
def distGet (dist : List (String × ℚ)) (k : String) : ℚ := (alookup dist k).getD 0

/-- Go map read `prev[k]` (zero value `""` for a missing key). -/
def prevGet (prev : List (String × String)) (k : String) : String := (alookup prev k).getD ""

/-- State of the Dijkstra loop. -/
structure DijkState where
  pq : List PQNode
  dist : List (String × ℚ)
  prev : List (String × String)
  visited : List String
deriving DecidableEq, Repr

/-- Relaxation of one adjacency list from the current node, exactly the
inner `for _, e := range graph[current.asset]` loop. -/
def relaxEdges (cur : PQNode) : List DEdge → DijkState → DijkState
  | [], st => st
  | e :: rest, st =>
    relaxEdges cur rest
      (if e.toA ∈ st.visited then st
       else
        if cur.cost + (1 - e.weight) < distGet st.dist e.toA then
          { st with
            dist := aset st.dist e.toA (cur.cost + (1 - e.weight)),
            prev := aset st.prev e.toA cur.asset,
            pq := heapPush st.pq ⟨e.toA, cur.cost + (1 - e.weight)⟩ }
        else st)

/-- The Dijkstra main loop. Fuel bounds the number of iterations; the total
number of pushes (1 + one per relaxation, each edge relaxing at most once)
always bounds it. On exhaustion the current `dist`/`prev` are returned,
exactly as if the queue had drained. -/
def dijkstraLoop : ℕ → List (String × List DEdge) → String → DijkState →
    (List (String × ℚ)) × (List (String × String))
  | 0, _, _, st => (st.dist, st.prev)
  | fuel + 1, g, endA, st =>
    match heapPop st.pq with
    | none => (st.dist, st.prev)
    | some (cur, pq2) =>
      if cur.asset ∈ st.visited then dijkstraLoop fuel g endA { st with pq := pq2 }
      else
        let st1 := { st with pq := pq2, visited := st.visited ++ [cur.asset] }
        if cur.asset = endA then (st1.dist, st1.prev)
        else dijkstraLoop fuel g endA (relaxEdges cur ((alookup g cur.asset).getD []) st1)

/-- Total number of directed edges of the graph (fuel bound). -/
def graphEdgeCount (g : List (String × List DEdge)) : ℕ :=
  (g.map (fun p => p.2.length)).sum

/-- The `prev`-chain recovery loop:
`for at := end; at != ""; at = prev[at] { path = prepend(at); if at == start break }`.
Fuel `prev.length + 2` always suffices under the loop invariants. -/
def recoverPathF : ℕ → List (String × String) → String → String → List String → List String
  | 0, _, _, _, acc => acc
  | fuel + 1, prev, start, atN, acc =>
    if atN = "" then acc
    else
      let acc2 := atN :: acc
      if atN = start then acc2
      else recoverPathF fuel prev start (prevGet prev atN) acc2

/-- Model of `Pathfinder.dijkstra`: initialize `dist` over the graph keys,
run the loop, check `prev[end]`, and recover the node path. `none` models
the `nil` path return. -/
def dijkstra (g : List (String × List DEdge)) (start endA : String) :
    Option (List String) × ℚ :=
  let dist0 := (g.map (fun p => (p.1, maxFloat64)))
  let dist1 := aset dist0 start 0
  let st0 : DijkState := { pq := heapPush [] ⟨start, 0⟩, dist := dist1, prev := [], visited := [] }
  let res := dijkstraLoop (graphEdgeCount g + 2) g endA st0
  if (alookup res.2 endA).isNone ∧ start ≠ endA then (none, 0)
  else (some (recoverPathF (res.2.length + 2) res.2 start endA []), distGet res.1 endA)

/-- Model of `Pathfinder.findHop` over the pools (first match wins, either
direction). -/
def findHopPools : List AMMPool → String → String → ℚ → Option Hop
  | [], _, _, _ => none
  | pool :: rest, fromA, toA, amountIn =>
    if pool.asset1.string = fromA ∧ pool.asset2.string = toA then
      some
        { type := "amm", inAsset := pool.asset1, outAsset := pool.asset2,
          amountIn := amountIn, amountOut := calculateAMMOutput pool amountIn true }
    else if pool.asset2.string = fromA ∧ pool.asset1.string = toA then
      some
        { type := "amm", inAsset := pool.asset2, outAsset := pool.asset1,
          amountIn := amountIn, amountOut := calculateAMMOutput pool amountIn false }
    else findHopPools rest fromA toA amountIn

/-- Model of `Pathfinder.findHop` over the offers (one direction,
`amount_out = amount_in · quality`). -/
def findHopOffers : List Offer → String → String → ℚ → Option Hop
  | [], _, _, _ => none
  | offer :: rest, fromA, toA, amountIn =>
    if offer.takerPays.string = fromA ∧ offer.takerGets.string = toA then
      some
        { type := "orderbook", inAsset := offer.takerPays, outAsset := offer.takerGets,
          amountIn := amountIn, amountOut := amountIn * offer.quality }
    else findHopOffers rest fromA toA amountIn

/-- Model of `Pathfinder.findHop`: pools first, then offers. -/
def findHop (pools : List AMMPool) (offers : List Offer) (fromA toA : String)
    (amountIn : ℚ) : Option Hop :=
  match findHopPools pools fromA toA amountIn with
  | some hop => some hop
  | none => findHopOffers offers fromA toA amountIn

/-- The hop-building walk of `buildRoute`: each adjacent pair of path nodes
becomes a hop, threading `currentAmount`. -/
def buildHops (pools : List AMMPool) (offers : List Offer) :
    List String → ℚ → Option (List Hop)
  | a :: b :: rest, amount =>
    match findHop pools offers a b amount with
    | none => none
    | some hop =>
      match buildHops pools offers (b :: rest) hop.amountOut with
      | none => none
      | some hops => some (hop :: hops)
  | _, _ => some []

/-- Model of `Pathfinder.buildRoute` (`nil` for paths shorter than two
nodes or a missing hop). -/
def buildRoute (pools : List AMMPool) (offers : List Offer) (path : List String)
    (amount : ℚ) : Option Route :=
  if path.length < 2 then none
  else (buildHops pools offers path amount).map (fun hops => { hops := hops })

/-- Model of `Pathfinder.FindBestRoute`. -/
def findBestRoute (pools : List AMMPool) (offers : List Offer) (inA outA : Asset)
    (amount : ℚ) : Except RouterErr Route :=
  let g := buildGraph pools offers
  match dijkstra g inA.string outA.string with
  | (none, _) => .error .noRoute
  | (some path, _) =>
    if path.length > maxHops + 1 then .error .noRoute
    else
      match buildRoute pools offers path amount with
      | none => .error .insufficientLiquidity
      | some route => .ok route

/-! #### Heap membership lemmas -/

theorem nget_mem (l : List PQNode) (i : ℕ) (h : i < l.length) : nget l i ∈ l := by
  unfold nget
  rw [List.getD_eq_getElem l _ h]
  exact List.getElem_mem h

theorem nswap_length (l : List PQNode) (i j : ℕ) : (nswap l i j).length = l.length := by
  simp [nswap]

theorem nswap_subset (l : List PQNode) (i j : ℕ) (hi : i < l.length) (hj : j < l.length) :
    ∀ x ∈ nswap l i j, x ∈ l := by
  intro x hx
  unfold nswap at hx
  rcases List.mem_or_eq_of_mem_set hx with hx2 | hx2
  · rcases List.mem_or_eq_of_mem_set hx2 with hx3 | hx3
    · exact hx3
    · rw [hx3]; exact nget_mem l j hj
  · rw [hx2]; exact nget_mem l i hi

theorem heapUpF_length (fuel : ℕ) : ∀ (l : List PQNode) (j : ℕ),
    (heapUpF fuel l j).length = l.length := by
  induction fuel with
  | zero => intro l j; rfl
  | succ fuel ih =>
    intro l j
    simp only [heapUpF]
    split_ifs
    · rfl
    · rw [ih, nswap_length]
    · rfl

theorem heapUpF_subset (fuel : ℕ) : ∀ (l : List PQNode) (j : ℕ), j < l.length →
    ∀ x ∈ heapUpF fuel l j, x ∈ l := by
  induction fuel with
  | zero => intro l j _ x hx; exact hx
  | succ fuel ih =>
    intro l j hj x hx
    simp only [heapUpF] at hx
    split_ifs at hx with h0 hless
    · exact hx
    · have hi : (j - 1) / 2 < l.length := lt_of_le_of_lt (by omega) hj
      have := ih (nswap l ((j - 1) / 2) j) ((j - 1) / 2)
        (by rw [nswap_length]; exact hi) x hx
      exact nswap_subset l _ _ hi hj x this
    · exact hx

theorem heapDownF_length (fuel : ℕ) : ∀ (l : List PQNode) (i n : ℕ),
    (heapDownF fuel l i n).length = l.length := by
  induction fuel with
  | zero => intro l i n; rfl
  | succ fuel ih =>
    intro l i n
    simp only [heapDownF]
    split_ifs <;> simp [ih, nswap_length]

theorem heapDownF_subset (fuel : ℕ) : ∀ (l : List PQNode) (i n : ℕ), n ≤ l.length →
    ∀ x ∈ heapDownF fuel l i n, x ∈ l := by
  induction fuel with
  | zero => intro l i n _ x hx; exact hx
  | succ fuel ih =>
    intro l i n hn x hx
    simp only [heapDownF] at hx
    split_ifs at hx with h1 h2 h3 h4
    · exact hx
    · have hjn : 2 * i + 2 < n := h2.1
      have hjl : 2 * i + 2 < l.length := lt_of_lt_of_le hjn hn
      have hil : i < l.length := by omega
      exact nswap_subset l i (2 * i + 2) hil hjl x
        (ih (nswap l i (2 * i + 2)) (2 * i + 2) n (by rw [nswap_length]; exact hn) x hx)
    · exact hx
    · have hjn : 2 * i + 1 < n := by omega
      have hjl : 2 * i + 1 < l.length := lt_of_lt_of_le hjn hn
      have hil : i < l.length := by omega
      exact nswap_subset l i (2 * i + 1) hil hjl x
        (ih (nswap l i (2 * i + 1)) (2 * i + 1) n (by rw [nswap_length]; exact hn) x hx)
    · exact hx

theorem heapPush_mem (l : List PQNode) (x : PQNode) :
    ∀ y ∈ heapPush l x, y ∈ l ∨ y = x := by
  intro y hy
  unfold heapPush at hy
  have hlen : l.length < (l ++ [x]).length := by simp
  have := heapUpF_subset (l.length + 1) (l ++ [x]) l.length hlen y hy
  rcases List.mem_append.mp this with h | h
  · exact Or.inl h
  · exact Or.inr (by simpa using h)

theorem heapPop_mem (l : List PQNode) (c : PQNode) (rest : List PQNode)
    (h : heapPop l = some (c, rest)) : c ∈ l ∧ ∀ x ∈ rest, x ∈ l := by
  unfold heapPop at h
  cases l with
  | nil => simp at h
  | cons hd tl =>
    simp only [Option.some.injEq, Prod.mk.injEq] at h
    obtain ⟨hc, hrest⟩ := h
    have hlen : (hd :: tl).length - 1 < (hd :: tl).length := by simp
    have hsw : ∀ x ∈ nswap (hd :: tl) 0 ((hd :: tl).length - 1), x ∈ hd :: tl :=
      nswap_subset _ _ _ (by simp) hlen
    have hdn : ∀ x ∈ heapDownF ((hd :: tl).length - 1 + 1)
        (nswap (hd :: tl) 0 ((hd :: tl).length - 1)) 0 ((hd :: tl).length - 1),
        x ∈ hd :: tl := by
      intro x hx
      refine hsw x (heapDownF_subset _ _ _ _ ?_ x hx)
      rw [nswap_length]; simp
    constructor
    · refine hdn c ?_
      rw [← hc]
      refine nget_mem _ _ ?_
      rw [heapDownF_length, nswap_length]
      simp
    · intro x hx
      rw [← hrest] at hx
      exact hdn x (List.take_subset _ _ hx)

/-! #### Association-list lemmas -/

theorem alookup_aset {α : Type} (l : List (String × α)) (k : String) (v : α) (y : String) :
    alookup (aset l k v) y = if k = y then some v else alookup l y := by
  induction l with
  | nil => by_cases hy : k = y <;> simp [aset, alookup, hy]
  | cons hd rest ih =>
    obtain ⟨k1, v1⟩ := hd
    by_cases hk : k1 = k
    · subst hk
      by_cases hy : k1 = y <;> simp [aset, alookup, hy]
    · by_cases hy : k1 = y
      · subst hy
        show alookup (if k1 = k then (k, v) :: rest else (k1, v1) :: aset rest k v) k1 =
          if k = k1 then some v else alookup ((k1, v1) :: rest) k1
        rw [if_neg hk, if_neg (fun h => hk h.symm)]
        show (if k1 = k1 then some v1 else alookup (aset rest k v) k1) =
          if k1 = k1 then some v1 else alookup rest k1
        rw [if_pos rfl, if_pos rfl]
      · simp [aset, alookup, hk, hy, ih]

theorem alookup_mem {α : Type} (l : List (String × α)) (k : String) (v : α)
    (h : alookup l k = some v) : (k, v) ∈ l := by
  induction l with
  | nil => simp [alookup] at h
  | cons hd rest ih =>
    obtain ⟨k1, v1⟩ := hd
    by_cases hk : k1 = k
    · subst hk
      simp [alookup] at h
      simp [h]
    · simp [alookup, hk] at h
      exact List.mem_cons_of_mem _ (ih h)

theorem alookup_isSome_of_aset {α : Type} (l : List (String × α)) (k : String) (v : α)
    (y : String) (h : (alookup l y).isSome) : (alookup (aset l k v) y).isSome := by
  rw [alookup_aset]
  split_ifs <;> simp_all

/-! #### indexOf lemmas -/

theorem indexOf_append_left (l : List String) (w : List String) (x : String)
    (hx : x ∈ l) : (l ++ w).indexOf x = l.indexOf x := by
  induction l with
  | nil => simp at hx
  | cons a rest ih =>
    by_cases hax : x = a
    · subst hax; simp [List.indexOf_cons_self]
    · have : x ∈ rest := by
        rcases List.mem_cons.mp hx with h | h
        · exact absurd h hax
        · exact h
      simp only [List.cons_append]
      rw [List.indexOf_cons_ne _ (fun h => hax h.symm),
        List.indexOf_cons_ne _ (fun h => hax h.symm), ih this]

theorem indexOf_append_self (l : List String) (a : String) (ha : a ∉ l) :
    (l ++ [a]).indexOf a = l.length := by
  induction l with
  | nil => simp
  | cons b rest ih =>
    have hba : a ≠ b := fun h => ha (by simp [h])
    simp only [List.cons_append]
    rw [List.indexOf_cons_ne _ (fun h => hba h.symm), ih (fun h => ha (List.mem_cons_of_mem _ h))]
    simp

/-! #### C2: pathfinder soundness machinery -/

/-- Every adjacency target stored in the graph is a non-empty node name. -/
def GoodG (g : List (String × List DEdge)) : Prop :=
  ∀ p ∈ g, ∀ e ∈ p.2, DEdge.toA e ≠ ""

theorem assocAppend_good (g : List (String × List DEdge)) (k : String) (e : DEdge)
    (hg : GoodG g) (he : e.toA ≠ "") : GoodG (assocAppend g k e) := by
  induction g with
  | nil =>
    intro p hp e1 he1
    simp only [assocAppend, List.mem_singleton] at hp
    subst hp
    simp only [List.mem_singleton] at he1
    subst he1
    exact he
  | cons hd rest ih =>
    obtain ⟨k0, es0⟩ := hd
    have hg0 : ∀ e1 ∈ es0, DEdge.toA e1 ≠ "" := hg (k0, es0) (by simp)
    have hgrest : GoodG rest := fun p hp => hg p (List.mem_cons_of_mem _ hp)
    intro p hp e1 he1
    simp only [assocAppend] at hp
    split_ifs at hp with hk
    · rcases List.mem_cons.mp hp with hh | hh
      · subst hh
        simp only [List.mem_append, List.mem_singleton] at he1
        rcases he1 with h | h
        · exact hg0 e1 h
        · subst h; exact he
      · exact hgrest p hh e1 he1
    · rcases List.mem_cons.mp hp with hh | hh
      · subst hh
        exact hg0 e1 he1
      · exact ih hgrest p hh e1 he1

theorem snd_mem_enumFrom {α : Type} : ∀ (l : List α) (n i : ℕ) (a : α),
    (i, a) ∈ l.enumFrom n → a ∈ l := by
  intro l
  induction l with
  | nil => intro n i a h; simp [List.enumFrom] at h
  | cons b rest ih =>
    intro n i a h
    simp only [List.enumFrom, List.mem_cons] at h
    rcases h with h | h
    · simp [Prod.ext_iff] at h
      simp [h.2]
    · exact List.mem_cons_of_mem _ (ih (n + 1) i a h)

/-- With non-empty asset names on every pool and offer, every edge target
produced by `buildGraph` is non-empty. -/
theorem buildGraph_good (pools : List AMMPool) (offers : List Offer)
    (HP : ∀ p ∈ pools, p.asset1.string ≠ "" ∧ p.asset2.string ≠ "")
    (HO : ∀ o ∈ offers, o.takerPays.string ≠ "" ∧ o.takerGets.string ≠ "") :
    GoodG (buildGraph pools offers) := by
  unfold buildGraph
  have hstep1 : ∀ (l : List (ℕ × AMMPool)) (g : List (String × List DEdge)),
      GoodG g → (∀ ip ∈ l, ip.2 ∈ pools) →
      GoodG (l.foldl (fun g ip =>
        assocAppend (assocAppend g ip.2.asset1.string
          ⟨ip.2.asset2.string, 1 - (ip.2.tradingFeeBps : ℚ) / 10000, some ip.1, none⟩)
          ip.2.asset2.string
          ⟨ip.2.asset1.string, 1 - (ip.2.tradingFeeBps : ℚ) / 10000, some ip.1, none⟩) g) := by
    intro l
    induction l with
    | nil => intro g hg _; exact hg
    | cons ip rest ih =>
      intro g hg hmem
      have hp := HP ip.2 (hmem ip (by simp))
      exact ih _ (assocAppend_good _ _ _ (assocAppend_good _ _ _ hg hp.2) hp.1)
        (fun q hq => hmem q (List.mem_cons_of_mem _ hq))
  have hstep2 : ∀ (l : List (ℕ × Offer)) (g : List (String × List DEdge)),
      GoodG g → (∀ io ∈ l, io.2 ∈ offers) →
      GoodG (l.foldl (fun g io =>
        assocAppend g io.2.takerPays.string
          ⟨io.2.takerGets.string, io.2.quality, none, some io.1⟩) g) := by
    intro l
    induction l with
    | nil => intro g hg _; exact hg
    | cons io rest ih =>
      intro g hg hmem
      have ho := HO io.2 (hmem io (by simp))
      exact ih _ (assocAppend_good _ _ _ hg ho.2)
        (fun q hq => hmem q (List.mem_cons_of_mem _ hq))
  exact hstep2 _ _
    (hstep1 _ [] (fun p hp => absurd hp (List.not_mem_nil p))
      (fun ip hip => snd_mem_enumFrom pools 0 ip.1 ip.2 hip))
    (fun io hio => snd_mem_enumFrom offers 0 io.1 io.2 hio)

theorem findHopPools_shape : ∀ (pools : List AMMPool) (fromA toA : String) (x : ℚ) (hop : Hop),
    findHopPools pools fromA toA x = some hop →
    hop.inAsset.string = fromA ∧ hop.outAsset.string = toA ∧ hop.amountIn = x := by
  intro pools
  induction pools with
  | nil => intro fromA toA x hop h; simp [findHopPools] at h
  | cons pool rest ih =>
    intro fromA toA x hop h
    simp only [findHopPools] at h
    split_ifs at h with h1 h2
    · obtain rfl : _ = hop := Option.some.injEq _ _ ▸ h
      exact ⟨h1.1, h1.2, rfl⟩
    · obtain rfl : _ = hop := Option.some.injEq _ _ ▸ h
      exact ⟨h2.1, h2.2, rfl⟩
    · exact ih fromA toA x hop h

theorem findHopOffers_shape : ∀ (offers : List Offer) (fromA toA : String) (x : ℚ) (hop : Hop),
    findHopOffers offers fromA toA x = some hop →
    hop.inAsset.string = fromA ∧ hop.outAsset.string = toA ∧ hop.amountIn = x := by
  intro offers
  induction offers with
  | nil => intro fromA toA x hop h; simp [findHopOffers] at h
  | cons offer rest ih =>
    intro fromA toA x hop h
    simp only [findHopOffers] at h
    split_ifs at h with h1
    · obtain rfl : _ = hop := Option.some.injEq _ _ ▸ h
      exact ⟨h1.1, h1.2, rfl⟩
    · exact ih fromA toA x hop h

theorem findHop_shape (pools : List AMMPool) (offers : List Offer) (fromA toA : String)
    (x : ℚ) (hop : Hop) (h : findHop pools offers fromA toA x = some hop) :
    hop.inAsset.string = fromA ∧ hop.outAsset.string = toA ∧ hop.amountIn = x := by
  unfold findHop at h
  cases hp : findHopPools pools fromA toA x with
  | none =>
    simp only [hp] at h
    exact findHopOffers_shape offers fromA toA x hop h
  | some hop1 =>
    simp only [hp, Option.some.injEq] at h
    subst h
    exact findHopPools_shape pools fromA toA x hop1 hp

theorem buildHops_shape (pools : List AMMPool) (offers : List Offer) :
    ∀ (path : List String) (x : ℚ) (hops : List Hop),
    buildHops pools offers path x = some hops → 2 ≤ path.length →
    hops.length + 1 = path.length ∧
    hops.head?.map (fun h => h.inAsset.string) = path.head? ∧
    hops.head?.map (fun h => h.amountIn) = some x ∧
    hops.getLast?.map (fun h => h.outAsset.string) = path.getLast? ∧
    (∀ i, i + 1 < hops.length →
      (hops.get? (i + 1)).map (fun h => h.inAsset.string) =
        (hops.get? i).map (fun h => h.outAsset.string) ∧
      (hops.get? (i + 1)).map (fun h => h.amountIn) =
        (hops.get? i).map (fun h => h.amountOut)) := by
  intro path
  induction path with
  | nil => intro x hops h hlen; simp at hlen
  | cons a tail ih =>
    cases tail with
    | nil => intro x hops h hlen; simp at hlen
    | cons b rest =>
      intro x hops h _
      simp only [buildHops] at h
      cases hf : findHop pools offers a b x with
      | none => simp [hf] at h
      | some hop =>
        simp only [hf] at h
        cases hb : buildHops pools offers (b :: rest) hop.amountOut with
        | none => simp [hb] at h
        | some hops1 =>
          simp only [hb, Option.some.injEq] at h
          subst h
          obtain ⟨hin, hout, hx⟩ := findHop_shape pools offers a b x hop hf
          cases rest with
          | nil =>
            have hone : hops1 = [] := by
              simp only [buildHops, Option.some.injEq] at hb
              exact hb.symm
            subst hone
            refine ⟨rfl, by simp [hin], by simp [hx], by simp [hout], ?_⟩
            intro i hi
            simp at hi
          | cons c rest2 =>
            obtain ⟨len1, hd1, amt1, last1, adj1⟩ :=
              ih hop.amountOut hops1 hb (by simp)
            obtain ⟨h1, t1, rfl⟩ : ∃ h1 t1, hops1 = h1 :: t1 := by
              cases hops1 with
              | nil => simp at len1
              | cons h1 t1 => exact ⟨h1, t1, rfl⟩
            refine ⟨by simpa using len1, by simp [hin], by simp [hx], ?_, ?_⟩
            · rw [List.getLast?_cons_cons, List.getLast?_cons_cons]
              exact last1
            · intro i hi
              cases i with
              | zero =>
                simp only [List.get?_cons_succ, List.get?_cons_zero]
                simp only [List.head?_cons, Option.map_some, Option.some.injEq] at hd1 amt1
                constructor
                · simp [hd1, hout]
                · simp [amt1]
              | succ j =>
                simp only [List.get?_cons_succ]
                exact adj1 j (by simpa using hi)

/-- Invariant of the Dijkstra loop state, relative to the start node:
`visited` is duplicate-free and made of non-empty names; every `prev`
entry points from a non-empty key to an already-visited node that was
visited strictly earlier (when the key itself is visited); and every
queued or visited node is the start or has a `prev` entry. -/
structure DijkInv (start : String) (st : DijkState) : Prop where
  ndup : st.visited.Nodup
  vKnown : ∀ v ∈ st.visited, v = start ∨ (alookup st.prev v).isSome
  pValVis : ∀ y x, alookup st.prev y = some x → x ∈ st.visited
  pKeyNe : ∀ y x, alookup st.prev y = some x → y ≠ ""
  pOrder : ∀ y x, alookup st.prev y = some x → y ∈ st.visited →
    st.visited.indexOf x < st.visited.indexOf y
  vNe : ∀ v ∈ st.visited, v ≠ ""
  qKnown : ∀ n ∈ st.pq, PQNode.asset n = start ∨ (alookup st.prev (PQNode.asset n)).isSome
  qNe : ∀ n ∈ st.pq, PQNode.asset n ≠ ""

theorem update_inv (start : String) (cur : PQNode) (e : DEdge) (st : DijkState) (c : ℚ)
    (hinv : DijkInv start st) (hcur : cur.asset ∈ st.visited) (he : e.toA ≠ "")
    (hnv : e.toA ∉ st.visited) :
    DijkInv start
      { st with
        dist := aset st.dist e.toA c,
        prev := aset st.prev e.toA cur.asset,
        pq := heapPush st.pq ⟨e.toA, c⟩ } := by
  refine ⟨hinv.ndup, ?_, ?_, ?_, ?_, hinv.vNe, ?_, ?_⟩
  · intro v hv
    rcases hinv.vKnown v hv with h | h
    · exact Or.inl h
    · exact Or.inr (alookup_isSome_of_aset _ _ _ _ h)
  · intro y x hxy
    rw [alookup_aset] at hxy
    split_ifs at hxy with hk
    · obtain rfl : cur.asset = x := Option.some.injEq _ _ ▸ hxy
      exact hcur
    · exact hinv.pValVis y x hxy
  · intro y x hxy
    rw [alookup_aset] at hxy
    split_ifs at hxy with hk
    · rw [← hk]; exact he
    · exact hinv.pKeyNe y x hxy
  · intro y x hxy hyv
    rw [alookup_aset] at hxy
    split_ifs at hxy with hk
    · exact absurd hyv (hk ▸ hnv)
    · exact hinv.pOrder y x hxy hyv
  · intro n hn
    rcases heapPush_mem st.pq ⟨e.toA, c⟩ n hn with h | h
    · rcases hinv.qKnown n h with h2 | h2
      · exact Or.inl h2
      · exact Or.inr (alookup_isSome_of_aset _ _ _ _ h2)
    · subst h
      exact Or.inr (by simp [alookup_aset_self])
  · intro n hn
    rcases heapPush_mem st.pq ⟨e.toA, c⟩ n hn with h | h
    · exact hinv.qNe n h
    · subst h
      exact he

theorem relaxEdges_inv (start : String) (cur : PQNode) :
    ∀ (edges : List DEdge) (st : DijkState), DijkInv start st →
    cur.asset ∈ st.visited → (∀ e ∈ edges, DEdge.toA e ≠ "") →
    DijkInv start (relaxEdges cur edges st) := by
  intro edges
  induction edges with
  | nil => intro st hinv _ _; exact hinv
  | cons e rest ih =>
    intro st hinv hcur hE
    have he : e.toA ≠ "" := hE e (by simp)
    have hrest : ∀ e1 ∈ rest, DEdge.toA e1 ≠ "" := fun e1 he1 =>
      hE e1 (List.mem_cons_of_mem _ he1)
    simp only [relaxEdges]
    split_ifs with h1 h2
    · exact ih st hinv hcur hrest
    · exact ih _ (update_inv start cur e st _ hinv hcur he h1) hcur hrest
    · exact ih st hinv hcur hrest

theorem exitBound (start : String) (visited : List String) (prev : List (String × String))
    (hnd : visited.Nodup) (hvk : ∀ v ∈ visited, v = start ∨ (alookup prev v).isSome) :
    visited.length ≤ prev.length + 1 := by
  have hsub : visited ⊆ start :: prev.map Prod.fst := by
    intro v hv
    rcases hvk v hv with h | h
    · simp [h]
    · rcases Option.isSome_iff_exists.mp h with ⟨x, hx⟩
      exact List.mem_cons_of_mem _ (List.mem_map_of_mem Prod.fst (alookup_mem prev v x hx))
  calc visited.length = visited.toFinset.card := (List.toFinset_card_of_nodup hnd).symm
    _ ≤ (start :: prev.map Prod.fst).toFinset.card := Finset.card_le_card (by
        intro a ha
        exact List.mem_toFinset.mpr (hsub (List.mem_toFinset.mp ha)))
    _ ≤ (start :: prev.map Prod.fst).length := (start :: prev.map Prod.fst).toFinset_card_le
    _ = prev.length + 1 := by simp

/-- What the loop guarantees about the returned `prev` map: witnessed by
the final `visited` order, every chain step goes strictly down in
visitation order, keys are non-empty, and `visited` is small enough for
the recovery fuel. -/
def PrevOut (start : String) (prev : List (String × String)) : Prop :=
  ∃ visited : List String,
    visited.Nodup ∧
    (∀ v ∈ visited, v = start ∨ (alookup prev v).isSome) ∧
    (∀ y x, alookup prev y = some x → x ∈ visited ∧ y ≠ "") ∧
    (∀ y x, alookup prev y = some x → y ∈ visited →
      visited.indexOf x < visited.indexOf y) ∧
    (∀ v ∈ visited, v ≠ "") ∧
    visited.length ≤ prev.length + 1

theorem prevOut_of_inv (start : String) (st : DijkState) (hinv : DijkInv start st) :
    PrevOut start st.prev :=
  ⟨st.visited, hinv.ndup, hinv.vKnown,
    fun y x h => ⟨hinv.pValVis y x h, hinv.pKeyNe y x h⟩, hinv.pOrder, hinv.vNe,
    exitBound start _ _ hinv.ndup hinv.vKnown⟩

theorem dijkstraLoop_prevOut (start endA : String) (g : List (String × List DEdge))
    (HG : GoodG g) : ∀ (fuel : ℕ) (st : DijkState), DijkInv start st →
    PrevOut start (dijkstraLoop fuel g endA st).2 := by
  intro fuel
  induction fuel with
  | zero => intro st hinv; exact prevOut_of_inv start st hinv
  | succ fuel ih =>
    intro st hinv
    cases hpop : heapPop st.pq with
    | none =>
      have hstep : dijkstraLoop (fuel + 1) g endA st = (st.dist, st.prev) := by
        simp only [dijkstraLoop, hpop]
      rw [hstep]
      exact prevOut_of_inv start st hinv
    | some p =>
      obtain ⟨cur, pq2⟩ := p
      obtain ⟨hcur_mem, hpq2⟩ := heapPop_mem st.pq cur pq2 hpop
      have hstep : dijkstraLoop (fuel + 1) g endA st =
          if cur.asset ∈ st.visited then dijkstraLoop fuel g endA { st with pq := pq2 }
          else if cur.asset = endA then (st.dist, st.prev)
          else dijkstraLoop fuel g endA
            (relaxEdges cur ((alookup g cur.asset).getD [])
              { st with pq := pq2, visited := st.visited ++ [cur.asset] }) := by
        simp only [dijkstraLoop, hpop]
      rw [hstep]
      by_cases hv : cur.asset ∈ st.visited
      · rw [if_pos hv]
        exact ih _ ⟨hinv.ndup, hinv.vKnown, hinv.pValVis, hinv.pKeyNe, hinv.pOrder, hinv.vNe,
          fun n hn => hinv.qKnown n (hpq2 n hn), fun n hn => hinv.qNe n (hpq2 n hn)⟩
      · rw [if_neg hv]
        have hinv1 : DijkInv start
            { st with pq := pq2, visited := st.visited ++ [cur.asset] } := by
          refine ⟨?_, ?_, ?_, hinv.pKeyNe, ?_, ?_, ?_, ?_⟩
          · rw [List.nodup_append]
            exact ⟨hinv.ndup, List.nodup_singleton _, by
              intro a ha hb
              rw [List.mem_singleton] at hb
              exact hv (hb ▸ ha)⟩
          · intro v hvm
            rcases List.mem_append.mp hvm with h | h
            · exact hinv.vKnown v h
            · rw [List.mem_singleton] at h
              subst h
              exact hinv.qKnown cur hcur_mem
          · intro y x hxy
            exact List.mem_append_left _ (hinv.pValVis y x hxy)
          · intro y x hxy hyv
            have hxv : x ∈ st.visited := hinv.pValVis y x hxy
            rcases List.mem_append.mp hyv with h | h
            · rw [indexOf_append_left _ _ _ hxv, indexOf_append_left _ _ _ h]
              exact hinv.pOrder y x hxy h
            · rw [List.mem_singleton] at h
              subst h
              rw [indexOf_append_left _ _ _ hxv, indexOf_append_self _ _ hv]
              exact List.indexOf_lt_length.mpr hxv
          · intro v hvm
            rcases List.mem_append.mp hvm with h | h
            · exact hinv.vNe v h
            · rw [List.mem_singleton] at h
              subst h
              exact hinv.qNe cur hcur_mem
          · intro n hn
            exact hinv.qKnown n (hpq2 n hn)
          · intro n hn
            exact hinv.qNe n (hpq2 n hn)
        by_cases hend : cur.asset = endA
        · rw [if_pos hend]
          exact prevOut_of_inv start
            { st with pq := pq2, visited := st.visited ++ [cur.asset] } hinv1
        · rw [if_neg hend]
          have hT : ∀ e ∈ (alookup g cur.asset).getD [], DEdge.toA e ≠ "" := by
            cases hlk : alookup g cur.asset with
            | none => simp
            | some es =>
              intro e hee
              rw [Option.getD_some] at hee
              exact HG (cur.asset, es) (alookup_mem g cur.asset es hlk) e hee
          exact ih _ (relaxEdges_inv start cur _ _ hinv1 (by simp) hT)

theorem chainRecover (start : String) (prev : List (String × String)) (visited : List String)
    (hvk : ∀ v ∈ visited, v = start ∨ (alookup prev v).isSome)
    (hpv : ∀ y x, alookup prev y = some x → x ∈ visited)
    (hord : ∀ y x, alookup prev y = some x → y ∈ visited →
      visited.indexOf x < visited.indexOf y)
    (hne : ∀ v ∈ visited, v ≠ "") :
    ∀ (k : ℕ) (x : String), x ∈ visited → visited.indexOf x ≤ k →
    ∀ (fuel : ℕ), k + 1 ≤ fuel → ∀ (acc : List String),
    ∃ q : List String, recoverPathF fuel prev start x acc = q ++ acc ∧
      q.head? = some start ∧ q.getLast? = some x := by
  intro k
  induction k with
  | zero =>
    intro x hx hix fuel hfuel acc
    have hxs : x = start := by
      by_contra hxs
      rcases hvk x hx with h | h
      · exact hxs h
      · rcases Option.isSome_iff_exists.mp h with ⟨x', hx'⟩
        have := hord x x' hx' hx
        omega
    obtain ⟨f2, rfl⟩ : ∃ f2, fuel = f2 + 1 := ⟨fuel - 1, by omega⟩
    refine ⟨[x], ?_, by simp [hxs], by simp⟩
    simp only [recoverPathF]
    rw [if_neg (hne x hx), if_pos hxs]
    simp
  | succ k ihk =>
    intro x hx hix fuel hfuel acc
    by_cases hxs : x = start
    · obtain ⟨f2, rfl⟩ : ∃ f2, fuel = f2 + 1 := ⟨fuel - 1, by omega⟩
      refine ⟨[x], ?_, by simp [hxs], by simp⟩
      simp only [recoverPathF]
      rw [if_neg (hne x hx), if_pos hxs]
      simp
    · rcases hvk x hx with h | h
      · exact absurd h hxs
      rcases Option.isSome_iff_exists.mp h with ⟨x', hlk⟩
      have hx'v : x' ∈ visited := hpv x x' hlk
      have hord' := hord x x' hlk hx
      obtain ⟨f2, rfl⟩ : ∃ f2, fuel = f2 + 1 := ⟨fuel - 1, by omega⟩
      obtain ⟨q', heq, hhd, hlast⟩ := ihk x' hx'v (by omega) f2 (by omega) (x :: acc)
      refine ⟨q' ++ [x], ?_, ?_, ?_⟩
      · simp only [recoverPathF]
        rw [if_neg (hne x hx), if_neg hxs]
        have hpg : prevGet prev x = x' := by simp [prevGet, hlk]
        rw [hpg, heq]
        simp
      · cases q' with
        | nil => simp at hhd
        | cons qa qt => simpa using hhd
      · simp [List.getLast?_concat]

theorem dijkstra_head_last (g : List (String × List DEdge)) (start endA : String)
    (path : List String) (c : ℚ) (HG : GoodG g) (hs : start ≠ "")
    (h : dijkstra g start endA = (some path, c)) (hlen2 : 2 ≤ path.length) :
    path.head? = some start ∧ path.getLast? = some endA := by
  have hinv0 : DijkInv start
      { pq := heapPush [] ⟨start, 0⟩,
        dist := aset (g.map (fun p => (p.1, maxFloat64))) start 0,
        prev := [], visited := [] } := by
    refine ⟨List.nodup_nil, ?_, ?_, ?_, ?_, ?_, ?_, ?_⟩
    · intro v hv; simp at hv
    · intro y x hxy; simp [alookup] at hxy
    · intro y x hxy; simp [alookup] at hxy
    · intro y x hxy; simp [alookup] at hxy
    · intro v hv; simp at hv
    · intro n hn
      have : heapPush [] (⟨start, 0⟩ : PQNode) = [⟨start, 0⟩] := rfl
      rw [this, List.mem_singleton] at hn
      subst hn
      exact Or.inl rfl
    · intro n hn
      have : heapPush [] (⟨start, 0⟩ : PQNode) = [⟨start, 0⟩] := rfl
      rw [this, List.mem_singleton] at hn
      subst hn
      exact hs
  have hout := dijkstraLoop_prevOut start endA g HG (graphEdgeCount g + 2) _ hinv0
  have hd : dijkstra g start endA =
      (if (alookup (dijkstraLoop (graphEdgeCount g + 2) g endA
            { pq := heapPush [] ⟨start, 0⟩,
              dist := aset (g.map (fun p => (p.1, maxFloat64))) start 0,
              prev := [], visited := [] }).2 endA).isNone ∧ start ≠ endA
       then (none, 0)
       else (some (recoverPathF ((dijkstraLoop (graphEdgeCount g + 2) g endA
              { pq := heapPush [] ⟨start, 0⟩,
                dist := aset (g.map (fun p => (p.1, maxFloat64))) start 0,
                prev := [], visited := [] }).2.length + 2)
            (dijkstraLoop (graphEdgeCount g + 2) g endA
              { pq := heapPush [] ⟨start, 0⟩,
                dist := aset (g.map (fun p => (p.1, maxFloat64))) start 0,
                prev := [], visited := [] }).2 start endA []),
          distGet (dijkstraLoop (graphEdgeCount g + 2) g endA
              { pq := heapPush [] ⟨start, 0⟩,
                dist := aset (g.map (fun p => (p.1, maxFloat64))) start 0,
                prev := [], visited := [] }).1 endA)) := rfl
  rw [hd] at h
  generalize hres : dijkstraLoop (graphEdgeCount g + 2) g endA
    { pq := heapPush [] ⟨start, 0⟩,
      dist := aset (g.map (fun p => (p.1, maxFloat64))) start 0,
      prev := [], visited := [] } = res at h hout
  obtain ⟨visited, hnd, hvk, hpvne, hord, hvne, hlenb⟩ := hout
  split_ifs at h with hguard
  · simp at h
  · have hpath : path = recoverPathF (res.2.length + 2) res.2 start endA [] := by
      have := (Prod.mk.injEq _ _ _ _ ▸ h).1
      exact (Option.some.injEq _ _ ▸ this).symm
    cases hlk : alookup res.2 endA with
    | none =>
      have hse : start = endA := by
        by_contra hne2
        exact hguard ⟨by simp [hlk], hne2⟩
      have hone : recoverPathF (res.2.length + 2) res.2 start endA [] = [endA] := by
        simp only [recoverPathF]
        rw [if_neg (hse ▸ hs), hse, if_pos rfl]
      rw [hone] at hpath
      rw [hpath] at hlen2
      simp at hlen2
    | some x' =>
      have hx'mem := (hpvne endA x' hlk).1
      have hendne : endA ≠ "" := (hpvne endA x' hlk).2
      by_cases hse : endA = start
      · have hone : recoverPathF (res.2.length + 2) res.2 start endA [] = [endA] := by
          simp only [recoverPathF]
          rw [if_neg hendne, if_pos hse]
        rw [hone] at hpath
        rw [hpath] at hlen2
        simp at hlen2
      · have hix : visited.indexOf x' ≤ res.2.length := by
          have h1 : visited.indexOf x' < visited.length := List.indexOf_lt_length.mpr hx'mem
          omega
        obtain ⟨q, heq, hhd, hlast⟩ := chainRecover start res.2 visited hvk
          (fun y x hh => (hpvne y x hh).1) hord hvne (visited.indexOf x') x' hx'mem le_rfl
          (res.2.length + 1) (by omega) [endA]
        have hstep : recoverPathF (res.2.length + 2) res.2 start endA [] =
            recoverPathF (res.2.length + 1) res.2 start x' [endA] := by
          simp only [recoverPathF]
          rw [if_neg hendne, if_neg hse]
          have hpg : prevGet res.2 endA = x' := by simp [prevGet, hlk]
          rw [hpg]
        rw [hpath, hstep, heq]
        constructor
        · cases q with
          | nil => simp at hhd
          | cons qa qt => simpa using hhd
        · simp [List.getLast?_concat]

/-- C2 (amended): when every pool and offer asset has a non-empty canonical
name and the request input asset is non-empty, every route returned by
FindBestRoute has a non-empty hop list starting at the request input,
ending at the request output, chained hop-to-hop in both asset and amount,
with at most MaxHops hops; and a recovered node path longer than
MaxHops + 1 nodes yields NoRoute. -/
theorem C2_pathfinder_amended
    (pools : List AMMPool) (offers : List Offer) (inA outA : Asset) (amount : ℚ)
    (HP : ∀ p ∈ pools, p.asset1.string ≠ "" ∧ p.asset2.string ≠ "")
    (HO : ∀ o ∈ offers, o.takerPays.string ≠ "" ∧ o.takerGets.string ≠ "")
    (hin : inA.string ≠ "") :
    (∀ route, findBestRoute pools offers inA outA amount = .ok route →
      route.hops ≠ [] ∧
      route.hops.head?.map (fun h => h.inAsset.string) = some inA.string ∧
      route.hops.getLast?.map (fun h => h.outAsset.string) = some outA.string ∧
      route.hops.length ≤ maxHops ∧
      (∀ i, i + 1 < route.hops.length →
        (route.hops.get? (i + 1)).map (fun h => h.inAsset.string) =
          (route.hops.get? i).map (fun h => h.outAsset.string) ∧
        (route.hops.get? (i + 1)).map (fun h => h.amountIn) =
          (route.hops.get? i).map (fun h => h.amountOut))) ∧
    (∀ path c, dijkstra (buildGraph pools offers) inA.string outA.string = (some path, c) →
      maxHops + 1 < path.length →
      findBestRoute pools offers inA outA amount = .error .noRoute) := by
  constructor
  · intro route hok
    simp only [findBestRoute] at hok
    rcases hd : dijkstra (buildGraph pools offers) inA.string outA.string with ⟨op, c⟩
    cases op with
    | none => simp [hd] at hok
    | some path =>
      simp only [hd] at hok
      split_ifs at hok with hcap
      · cases hbr : buildRoute pools offers path amount with
        | none => simp [hbr] at hok
        | some route2 =>
          simp only [hbr] at hok
          have hroute : route2 = route := by
            injection hok
          subst hroute
          have hlen2 : 2 ≤ path.length := by
            by_contra hc
            unfold buildRoute at hbr
            rw [if_pos (by omega)] at hbr
            simp at hbr
          have hbh : ∃ hops, buildHops pools offers path amount = some hops ∧
              route2 = { hops := hops } := by
            unfold buildRoute at hbr
            rw [if_neg (by omega)] at hbr
            cases hbh2 : buildHops pools offers path amount with
            | none => rw [hbh2] at hbr; simp at hbr
            | some hops =>
              rw [hbh2] at hbr
              refine ⟨hops, rfl, ?_⟩
              have hbr2 : some (Route.mk hops) = some route2 := hbr
              exact (Option.some.injEq _ _ ▸ hbr2).symm
          obtain ⟨hops, hbh, hroute2⟩ := hbh
          obtain ⟨hL, hHd, _, hLast, hAdj⟩ :=
            buildHops_shape pools offers path amount hops hbh hlen2
          obtain ⟨hph, hpl⟩ := dijkstra_head_last (buildGraph pools offers)
            inA.string outA.string path c (buildGraph_good pools offers HP HO) hin hd hlen2
          have hhops : route2.hops = hops := by rw [hroute2]
          rw [hhops]
          refine ⟨?_, ?_, ?_, ?_, hAdj⟩
          · have : 0 < hops.length := by omega
            exact List.ne_nil_of_length_pos this
          · rw [hHd, hph]
          · rw [hLast, hpl]
          · simp only [maxHops] at hcap ⊢
            omega
  · intro path c hd hcap
    simp only [findBestRoute, hd]
    rw [if_pos hcap]

/-- C2 counterexample: with a pool on the degenerate empty-named asset, the
request from the empty asset to `CCC.rC` returns an ok route whose first
hop input is `BBB.rB`, not the request input — the recovery loop condition
`at != ""` drops the start node, refuting the unconditional claim. -/
theorem C2_counterexample :
    (findBestRoute
        [⟨⟨"", ""⟩, ⟨"BBB", "rB"⟩, 1, 1, 0⟩, ⟨⟨"BBB", "rB"⟩, ⟨"CCC", "rC"⟩, 1, 1, 0⟩]
        [] ⟨"", ""⟩ ⟨"CCC", "rC"⟩ 1).toOption.map
      (fun r => r.hops.head?.map (fun h => h.inAsset.string)) =
      some (some "BBB.rB") ∧
    Asset.string ⟨"", ""⟩ ≠ "BBB.rB" := by
  have hmax0 : (0 : ℚ) < maxFloat64 := by unfold maxFloat64; norm_num
  constructor
  · simp [findBestRoute, buildGraph, assocAppend, List.enum, List.enumFrom, graphEdgeCount,
      dijkstra, dijkstraLoop, heapPop, heapPush, heapUpF, heapDownF, nswap, nget, relaxEdges,
      alookup, aset, distGet, prevGet, recoverPathF, Asset.string, maxHops, buildRoute,
      buildHops, findHop, findHopPools, findHopOffers, calculateAMMOutput, hmax0,
      Except.toOption]
  · decide

/-- C2 witness: the amended theorem applied to a one-pool XRP/USD snapshot,
with the non-emptiness hypotheses discharged by evaluation. -/
theorem C2_pathfinder_amended_witness :
    Asset.string ⟨"XRP", ""⟩ ≠ "" ∧
    (∀ path c,
      dijkstra (buildGraph [⟨⟨"XRP", ""⟩, ⟨"USD", "rI"⟩, 1000, 10000, 30⟩] [])
        (Asset.string ⟨"XRP", ""⟩) (Asset.string ⟨"USD", "rI"⟩) = (some path, c) →
      maxHops + 1 < path.length →
      findBestRoute [⟨⟨"XRP", ""⟩, ⟨"USD", "rI"⟩, 1000, 10000, 30⟩] []
        ⟨"XRP", ""⟩ ⟨"USD", "rI"⟩ 100 = Except.error RouterErr.noRoute) :=
  ⟨by decide,
   (C2_pathfinder_amended [⟨⟨"XRP", ""⟩, ⟨"USD", "rI"⟩, 1000, 10000, 30⟩] []
      ⟨"XRP", ""⟩ ⟨"USD", "rI"⟩ 100 (by decide) (by decide) (by decide)).2⟩

/-! #### C8: heap pop order and cost additivity -/

/-- The sequence of assets obtained by repeatedly popping the priority
queue (fuelled by the number of pops requested). -/
def popSeq : ℕ → List PQNode → List String
  | 0, _ => []
  | fuel + 1, l =>
    match heapPop l with
    | none => []
    | some (c, rest) => c.asset :: popSeq fuel rest

theorem popSeq_two_stable (n1 n2 : PQNode) (h : n1.cost = n2.cost) :
    popSeq 2 (heapPush (heapPush [] n1) n2) = [n1.asset, n2.asset] := by
  have h21 : pqLess n2 n1 = false := by simp [pqLess, h]
  simp [popSeq, heapPush, heapUpF, heapPop, heapDownF, nswap, nget, h21]

theorem dijkstra_line_additive (f1 f2 : ℤ) (h1b : f1 ≤ 10000) (h2b : f2 ≤ 10000) :
    dijkstra (buildGraph
        [⟨⟨"AAA", "r1"⟩, ⟨"BBB", "r1"⟩, 1, 1, f1⟩, ⟨⟨"BBB", "r1"⟩, ⟨"CCC", "r1"⟩, 1, 1, f2⟩] [])
      "AAA.r1" "CCC.r1" =
    (some ["AAA.r1", "BBB.r1", "CCC.r1"],
      (1 - (1 - (f1 : ℚ) / 10000)) + (1 - (1 - (f2 : ℚ) / 10000))) := by
  have hmax : (2 : ℚ) < maxFloat64 := by unfold maxFloat64; norm_num
  have hf1 : (f1 : ℚ) / 10000 ≤ 1 := by
    rw [div_le_one (by norm_num)]; exact_mod_cast h1b
  have hf2 : (f2 : ℚ) / 10000 ≤ 1 := by
    rw [div_le_one (by norm_num)]; exact_mod_cast h2b
  have hw1 : (f1 : ℚ) / 10000 < maxFloat64 := by linarith
  have hw2 : (f1 : ℚ) / 10000 + (f2 : ℚ) / 10000 < maxFloat64 := by linarith
  simp [dijkstra, buildGraph, assocAppend, List.enum, List.enumFrom, graphEdgeCount,
    dijkstraLoop, heapPop, heapPush, heapUpF, heapDownF, nswap, nget, relaxEdges,
    alookup, aset, distGet, prevGet, recoverPathF, Asset.string, hw1, hw2]

/-- C8 (amended): the Dijkstra edge cost is `1 - edge_weight` and path cost
is additive — on the two-pool line graph A-B-C the destination cost is
exactly `(1 - w1) + (1 - w2)` for the fee multipliers `w_i = 1 - fee_i/10000`
— and a tie between TWO queued entries of equal cost pops in insertion
order. (Stability fails from three entries on; see the counterexample.) -/
theorem C8_cost_tiebreak_amended :
    (∀ f1 f2 : ℤ, f1 ≤ 10000 → f2 ≤ 10000 →
      dijkstra (buildGraph
          [⟨⟨"AAA", "r1"⟩, ⟨"BBB", "r1"⟩, 1, 1, f1⟩,
           ⟨⟨"BBB", "r1"⟩, ⟨"CCC", "r1"⟩, 1, 1, f2⟩] [])
        "AAA.r1" "CCC.r1" =
      (some ["AAA.r1", "BBB.r1", "CCC.r1"],
        (1 - (1 - (f1 : ℚ) / 10000)) + (1 - (1 - (f2 : ℚ) / 10000)))) ∧
    (∀ n1 n2 : PQNode, n1.cost = n2.cost →
      popSeq 2 (heapPush (heapPush [] n1) n2) = [n1.asset, n2.asset]) :=
  ⟨fun f1 f2 h1 h2 => dijkstra_line_additive f1 f2 h1 h2,
   fun n1 n2 h => popSeq_two_stable n1 n2 h⟩

/-- C8 counterexample: three equal-cost entries pushed in the order
A, B, C pop in the order A, C, B — `container/heap` sift-down is not
insertion-stable, refuting "ties broken by insertion order (stable)". -/
theorem C8_counterexample :
    popSeq 3 (heapPush (heapPush (heapPush [] ⟨"A", 0⟩) ⟨"B", 0⟩) ⟨"C", 0⟩) =
      ["A", "C", "B"] ∧ (["A", "C", "B"] : List String) ≠ ["A", "B", "C"] := by
  constructor
  · with_unfolding_all decide
  · decide

/-- C8 witness: the amended theorem applied at fees 30 and 50 bps and at a
concrete equal-cost pair. -/
theorem C8_cost_tiebreak_amended_witness :
    dijkstra (buildGraph
        [⟨⟨"AAA", "r1"⟩, ⟨"BBB", "r1"⟩, 1, 1, 30⟩,
         ⟨⟨"BBB", "r1"⟩, ⟨"CCC", "r1"⟩, 1, 1, 50⟩] [])
      "AAA.r1" "CCC.r1" =
    (some ["AAA.r1", "BBB.r1", "CCC.r1"],
      (1 - (1 - (30 : ℚ) / 10000)) + (1 - (1 - (50 : ℚ) / 10000))) ∧
    popSeq 2 (heapPush (heapPush [] ⟨"A", 5⟩) ⟨"B", 5⟩) = ["A", "B"] :=
  ⟨C8_cost_tiebreak_amended.1 30 50 (by decide) (by decide),
   C8_cost_tiebreak_amended.2 ⟨"A", 5⟩ ⟨"B", 5⟩ rfl⟩

/-! ### Circuit breaker (`router/breaker.go`) -/

/-- Failure limit `DefaultFailureLimit = 5`. -/
def defaultFailureLimit : ℤ := 5

/-- Capacity `DefaultMaxPrices = 100` of the recent-price queue. -/
def defaultMaxPrices : ℕ := 100

/-- Model of `breakerState`. Times are rational seconds. -/
structure BreakerState where
  pair : String
  recentPrices : List ℚ
  lastTradeTs : ℚ
  state : String
  failures : ℤ
  openedAt : ℚ
deriving DecidableEq, Repr

/-- Model of `CircuitBreaker` (the persist callback does not affect the
in-memory state and is omitted). -/
structure CircuitBreaker where
  states : List (String × BreakerState)
  threshold : ℚ
  cautionMode : Bool
  cautionUntil : ℚ
deriving DecidableEq, Repr

/-- Model of `CircuitBreaker.getOrCreateState` (the freshly created state
uses Go zero values for the time fields). -/
def getOrCreateState (states : List (String × BreakerState)) (pair : String) : BreakerState :=
  match alookup states pair with
  | some s => s
  | none =>
    { pair := pair, recentPrices := [], lastTradeTs := 0, state := "closed"
      failures := 0, openedAt := 0 }

/-- Model of `CircuitBreaker.recordPrice`: append, then drop the oldest
price if the queue exceeds `DefaultMaxPrices`. -/
def recordPrice (s : BreakerState) (price : ℚ) : BreakerState :=
  let l := s.recentPrices ++ [price]
  { s with recentPrices := if defaultMaxPrices < l.length then l.drop 1 else l }

/-- Model of `CircuitBreaker.calculateAverage`. -/
def calculateAverage (prices : List ℚ) : ℚ :=
  if prices = [] then 0 else prices.sum / (prices.length : ℚ)

/-- Effective threshold used by `CheckPrice`: halved while caution mode is
active and `now` is before `cautionUntil`. -/
def effectiveThreshold (cb : CircuitBreaker) (now : ℚ) : ℚ :=
  if cb.cautionMode ∧ now < cb.cautionUntil then cb.threshold * (1 / 2) else cb.threshold

/-- Relative deviation `|p - avg| / avg` computed by `CheckPrice`
(`price.Sub(avgPrice).Div(avgPrice).Abs()`, division exact here). -/
def priceDeviation (price avg : ℚ) : ℚ := |(price - avg) / avg|

/-- Model of `CircuitBreaker.CheckPrice`. `now` stands for the calls to
`time.Now()` during this invocation. Returns the updated breaker and the
error result (`none` on success). -/
def checkPrice (cb : CircuitBreaker) (pair : String) (price : ℚ) (now : ℚ) :
    CircuitBreaker × Option RouterErr :=
  let s0 := getOrCreateState cb.states pair
  if s0.state = "open" ∧ ¬ (now - s0.openedAt > 30) then
    ({ cb with states := aset cb.states pair s0 }, some .circuitBreakerOpen)
  else
    let s1 := if s0.state = "open" then { s0 with state := "half-open", failures := 0 } else s0
    let threshold := effectiveThreshold cb now
    if s1.recentPrices = [] then
      ({ cb with states := aset cb.states pair (recordPrice s1 price) }, none)
    else
      let avgPrice := calculateAverage s1.recentPrices
      let deviation := priceDeviation price avgPrice
      if deviation > threshold then
        let s2 := { s1 with failures := s1.failures + 1 }
        let s3 := if s2.failures ≥ defaultFailureLimit then
          { s2 with state := "open", openedAt := now } else s2
        ({ cb with states := aset cb.states pair s3 }, some .circuitBreakerOpen)
      else
        let s2 := if s1.state = "half-open" then { s1 with state := "closed", failures := 0 }
          else s1
        ({ cb with states := aset cb.states pair (recordPrice s2 price) }, none)

/-- Folding `CheckPrice` over a list of `(price, now)` calls, keeping the
breaker state. -/
def checkMany (cb : CircuitBreaker) (pair : String) (calls : List (ℚ × ℚ)) : CircuitBreaker :=
  calls.foldl (fun acc c => (checkPrice acc pair c.1 c.2).1) cb

theorem aset_aset {α : Type} (l : List (String × α)) (k : String) (v w : α) :
    aset (aset l k v) k w = aset l k w := by
  induction l with
  | nil => simp [aset]
  | cons hd rest ih =>
    obtain ⟨k1, v1⟩ := hd
    by_cases hk : k1 = k <;> simp [aset, hk, ih]

/-- Behaviour of `CheckPrice` on an out-of-threshold price when the pair is
not in the `open` state: the failure counter is incremented, the breaker
opens (recording `opened_at`) exactly when the counter reaches
`DefaultFailureLimit`, the price is not recorded, and the call returns
`ErrCircuitBreakerOpen`. -/
theorem checkPrice_bad_notOpen (cb : CircuitBreaker) (pair : String) (price now : ℚ)
    (s : BreakerState) (hs : alookup cb.states pair = some s)
    (hstate : s.state ≠ "open") (hne : s.recentPrices ≠ [])
    (hdev : priceDeviation price (calculateAverage s.recentPrices) > effectiveThreshold cb now) :
    checkPrice cb pair price now =
      ({ cb with states := (aset cb.states pair
          (if s.failures + 1 ≥ defaultFailureLimit then
            { s with failures := s.failures + 1, state := "open", openedAt := now }
          else { s with failures := s.failures + 1 })) },
       some .circuitBreakerOpen) := by
  simp only [checkPrice, getOrCreateState, hs]
  rw [if_neg (by simp [hstate])]
  rw [if_neg hstate, if_neg (by simpa using hne), if_pos hdev]

/-- Claim C10: in the closed state with a non-empty price history, an
out-of-threshold price returns `CircuitBreakerOpen` while (below the
failure limit) the state remains closed and the rejected price is not
appended to `recent_prices`. -/
theorem C10_closed_reject_no_record (cb : CircuitBreaker) (pair : String) (price now : ℚ)
    (s : BreakerState) (hs : alookup cb.states pair = some s)
    (hclosed : s.state = "closed") (hne : s.recentPrices ≠ [])
    (hdev : priceDeviation price (calculateAverage s.recentPrices) > effectiveThreshold cb now)
    (hlim : s.failures + 1 < defaultFailureLimit) :
    checkPrice cb pair price now =
      ({ cb with states := aset cb.states pair { s with failures := s.failures + 1 } },
       some .circuitBreakerOpen) ∧
    (BreakerState.state { s with failures := s.failures + 1 } = "closed") ∧
    (BreakerState.recentPrices { s with failures := s.failures + 1 } = s.recentPrices) := by
  refine ⟨?_, by simpa using hclosed, rfl⟩
  rw [checkPrice_bad_notOpen cb pair price now s hs (by simp [hclosed]) hne hdev]
  rw [if_neg (not_le.mpr hlim)]

@[simp] theorem effectiveThreshold_setStates (cb : CircuitBreaker)
    (l : List (String × BreakerState)) (now : ℚ) :
    effectiveThreshold { cb with states := l } now = effectiveThreshold cb now := rfl

/-- Evaluation of `CheckPrice` when the pair's state is not `open`: the
three branches (empty history, out-of-threshold, in-threshold) written out. -/
theorem checkPrice_notOpen_eval (cb : CircuitBreaker) (pair : String) (price now : ℚ)
    (s : BreakerState) (hs : alookup cb.states pair = some s)
    (hstate : s.state ≠ "open") :
    checkPrice cb pair price now =
      (if s.recentPrices = [] then
        ({ cb with states := aset cb.states pair (recordPrice s price) }, none)
      else if priceDeviation price (calculateAverage s.recentPrices) >
          effectiveThreshold cb now then
        ({ cb with states := (aset cb.states pair
            (if s.failures + 1 ≥ defaultFailureLimit then
              { s with failures := s.failures + 1, state := "open", openedAt := now }
            else { s with failures := s.failures + 1 })) },
         some .circuitBreakerOpen)
      else
        ({ cb with states := (aset cb.states pair (recordPrice
            (if s.state = "half-open" then { s with state := "closed", failures := 0 } else s)
            price)) }, none)) := by
  simp only [checkPrice, getOrCreateState, hs]
  rw [if_neg (by simp [hstate]), if_neg hstate]

/-- Evaluation of `CheckPrice` on an `open` pair past the 30-second
recovery window: the pair moves to `half-open` with a reset failure
counter and is then evaluated normally. -/
theorem checkPrice_open_after_eval (cb : CircuitBreaker) (pair : String) (price now : ℚ)
    (s : BreakerState) (hs : alookup cb.states pair = some s)
    (hopen : s.state = "open") (hafter : now - s.openedAt > 30) :
    checkPrice cb pair price now =
      (if s.recentPrices = [] then
        ({ cb with states := (aset cb.states pair
            (recordPrice { s with state := "half-open", failures := 0 } price)) }, none)
      else if priceDeviation price (calculateAverage s.recentPrices) >
          effectiveThreshold cb now then
        ({ cb with states := (aset cb.states pair
            { s with state := "half-open", failures := 0 + 1 }) },
         some .circuitBreakerOpen)
      else
        ({ cb with states := (aset cb.states pair
            (recordPrice { s with state := "closed", failures := 0 } price)) }, none)) := by
  simp only [checkPrice, getOrCreateState, hs]
  rw [if_neg (fun h => h.2 hafter), if_pos hopen]
  simp only [recordPrice]
  norm_num [defaultFailureLimit]

/-- Claim C4: (1) five consecutive out-of-threshold checks starting from a
closed pair with a clean failure counter leave the pair `open` with
`opened_at` set to the fifth call's time; (2) while `open` and within 30
seconds of `opened_at`, a check returns `CircuitBreakerOpen` and leaves the
breaker unchanged; (3) the first check more than 30 seconds after
`opened_at` behaves exactly as on the breaker with that pair moved to
`half-open` with a reset failure counter, and returns the same error result
as it would from `closed` with a reset failure counter. -/
theorem C4_breaker_safety :
    (∀ (cb : CircuitBreaker) (pair : String) (s : BreakerState) (p1 t1 p2 t2 p3 t3 p4 t4 p5 t5 : ℚ),
      alookup cb.states pair = some s → s.state = "closed" → s.failures = 0 →
      s.recentPrices ≠ [] →
      (∀ c ∈ [(p1, t1), (p2, t2), (p3, t3), (p4, t4), (p5, t5)],
        priceDeviation c.1 (calculateAverage s.recentPrices) > effectiveThreshold cb c.2) →
      alookup (checkMany cb pair [(p1, t1), (p2, t2), (p3, t3), (p4, t4), (p5, t5)]).states pair =
        some { s with failures := 5, state := "open", openedAt := t5 }) ∧
    (∀ (cb : CircuitBreaker) (pair : String) (price now : ℚ) (s : BreakerState),
      alookup cb.states pair = some s → s.state = "open" → now - s.openedAt ≤ 30 →
      checkPrice cb pair price now = (cb, some .circuitBreakerOpen)) ∧
    (∀ (cb : CircuitBreaker) (pair : String) (price now : ℚ) (s : BreakerState),
      alookup cb.states pair = some s → s.state = "open" → now - s.openedAt > 30 →
      checkPrice cb pair price now =
        checkPrice { cb with states := (aset cb.states pair
          { s with state := "half-open", failures := 0 }) } pair price now ∧
      (checkPrice cb pair price now).2 =
        (checkPrice { cb with states := (aset cb.states pair
          { s with state := "closed", failures := 0 }) } pair price now).2) := by
  refine ⟨?_, ?_, ?_⟩
  · intro cb pair s p1 t1 p2 t2 p3 t3 p4 t4 p5 t5 hs hclosed hfail hne hbad
    obtain ⟨states, thr, cm, cu⟩ := cb
    obtain ⟨sp, spr, slt, sst, sf, sop⟩ := s
    simp only at hclosed hfail hne
    subst hclosed hfail
    have hb1 := hbad (p1, t1) (by simp)
    have hb2 := hbad (p2, t2) (by simp)
    have hb3 := hbad (p3, t3) (by simp)
    have hb4 := hbad (p4, t4) (by simp)
    have hb5 := hbad (p5, t5) (by simp)
    simp only [checkMany, List.foldl]
    rw [checkPrice_bad_notOpen _ pair p1 t1 _ hs (by simp) hne hb1, if_neg (by norm_num [defaultFailureLimit])]
    rw [checkPrice_bad_notOpen _ pair p2 t2 _ (alookup_aset_self _ _ _) (by simp) hne
        (by exact hb2), if_neg (by norm_num [defaultFailureLimit])]
    rw [aset_aset]
    rw [checkPrice_bad_notOpen _ pair p3 t3 _ (alookup_aset_self _ _ _) (by simp) hne
        (by exact hb3), if_neg (by norm_num [defaultFailureLimit])]
    rw [aset_aset]
    rw [checkPrice_bad_notOpen _ pair p4 t4 _ (alookup_aset_self _ _ _) (by simp) hne
        (by exact hb4), if_neg (by norm_num [defaultFailureLimit])]
    rw [aset_aset]
    rw [checkPrice_bad_notOpen _ pair p5 t5 _ (alookup_aset_self _ _ _) (by simp) hne
        (by exact hb5), if_pos (by norm_num [defaultFailureLimit])]
    rw [aset_aset, alookup_aset_self]
    norm_num
  · intro cb pair price now s hs hopen hwithin
    simp only [checkPrice, getOrCreateState, hs]
    rw [if_pos ⟨hopen, not_lt.mpr hwithin⟩, aset_lookup_self _ _ _ hs]
  · intro cb pair price now s hs hopen hafter
    have h1 := checkPrice_open_after_eval cb pair price now s hs hopen hafter
    have h2 := checkPrice_notOpen_eval
      { cb with states := (aset cb.states pair { s with state := "half-open", failures := 0 }) }
      pair price now { s with state := "half-open", failures := 0 }
      (alookup_aset_self _ _ _) (by simp)
    have h3 := checkPrice_notOpen_eval
      { cb with states := (aset cb.states pair { s with state := "closed", failures := 0 }) }
      pair price now { s with state := "closed", failures := 0 }
      (alookup_aset_self _ _ _) (by simp)
    constructor
    · rw [h1, h2]
      simp only [aset_aset, effectiveThreshold_setStates]
      norm_num [defaultFailureLimit, recordPrice]
    · rw [h1, h3]
      by_cases hp : s.recentPrices = []
      · simp [hp]
      · by_cases hdev : priceDeviation price (calculateAverage s.recentPrices) >
          effectiveThreshold cb now
        · simp [hp, hdev]
        · simp [hp, hdev]

/-- Claim C5 as amended: in `half-open` with a non-empty history, an
out-of-threshold price increments the failure counter and returns
`CircuitBreakerOpen`; the state transitions to `open` (recording
`opened_at`, exactly as the closed-to-open transition) precisely when the
incremented counter reaches `DefaultFailureLimit`, and otherwise remains
`half-open`; in particular a single out-of-threshold check from a freshly
entered `half-open` state (failure counter 0) does not open the breaker. -/
theorem C5_half_open_amended (cb : CircuitBreaker) (pair : String) (price now : ℚ)
    (s : BreakerState) (hs : alookup cb.states pair = some s)
    (hhalf : s.state = "half-open") (hne : s.recentPrices ≠ [])
    (hdev : priceDeviation price (calculateAverage s.recentPrices) > effectiveThreshold cb now) :
    checkPrice cb pair price now =
      ({ cb with states := (aset cb.states pair
          (if s.failures + 1 ≥ defaultFailureLimit then
            { s with failures := s.failures + 1, state := "open", openedAt := now }
          else { s with failures := s.failures + 1 })) },
       some .circuitBreakerOpen) ∧
    (BreakerState.state (if s.failures + 1 ≥ defaultFailureLimit then
        { s with failures := s.failures + 1, state := "open", openedAt := now }
      else { s with failures := s.failures + 1 }) = "open" ↔
      s.failures + 1 ≥ defaultFailureLimit) := by
  refine ⟨checkPrice_bad_notOpen cb pair price now s hs (by simp [hhalf]) hne hdev, ?_⟩
  by_cases hl : s.failures + 1 ≥ defaultFailureLimit
  · simp [hl]
  · simp [hl, hhalf]

/-- Concrete breaker state for witnesses and counterexamples: pair `P`,
price history `[1]`, threshold `1/20`, caution mode off. -/
def breakerStateW (st : String) (f : ℤ) (op : ℚ) : BreakerState :=
  { pair := "P", recentPrices := [1], lastTradeTs := 0, state := st, failures := f, openedAt := op }

/-- Concrete breaker holding `breakerStateW st f op` under pair `P`. -/
def breakerW (st : String) (f : ℤ) (op : ℚ) : CircuitBreaker :=
  { states := [("P", breakerStateW st f op)], threshold := 1 / 20
    cautionMode := false, cautionUntil := 0 }

/-- Counterexample to claim C5 as stated: a pair in `half-open` (failure
counter 0) with history `[1]` and threshold `1/20` sees the out-of-threshold
price 2; the call returns `CircuitBreakerOpen` but the state remains
`half-open` — it does not transition to `open` as the claim requires. -/
theorem C5_counterexample :
    priceDeviation 2 (calculateAverage (breakerStateW "half-open" 0 0).recentPrices) >
      effectiveThreshold (breakerW "half-open" 0 0) 100 ∧
    (alookup (checkPrice (breakerW "half-open" 0 0) "P" 2 100).1.states "P").map
      BreakerState.state = some "half-open" ∧
    ("half-open" : String) ≠ "open" ∧
    (checkPrice (breakerW "half-open" 0 0) "P" 2 100).2 = some RouterErr.circuitBreakerOpen := by
  have hdev : priceDeviation 2 (calculateAverage (breakerStateW "half-open" 0 0).recentPrices) >
      effectiveThreshold (breakerW "half-open" 0 0) 100 := by
    norm_num [priceDeviation, calculateAverage, effectiveThreshold, breakerW, breakerStateW]
  have h := checkPrice_bad_notOpen (breakerW "half-open" 0 0) "P" 2 100
    (breakerStateW "half-open" 0 0) (by simp [breakerW, alookup]) (by simp [breakerStateW])
    (by simp [breakerStateW]) hdev
  refine ⟨hdev, ?_, by decide, ?_⟩
  · rw [h]
    norm_num [breakerW, breakerStateW, aset, alookup, defaultFailureLimit]
  · rw [h]

/-- Witness instantiating the three parts of `C4_breaker_safety` on
concrete breakers (threshold `1/20`, history `[1]`, out-of-threshold
price 2). -/
theorem C4_breaker_safety_witness :
    (alookup (checkMany (breakerW "closed" 0 0) "P"
        [(2, 1), (2, 2), (2, 3), (2, 4), (2, 5)]).states "P" =
      some { breakerStateW "closed" 0 0 with failures := 5, state := "open", openedAt := 5 }) ∧
    (checkPrice (breakerW "open" 0 0) "P" 2 10 =
      (breakerW "open" 0 0, some .circuitBreakerOpen)) ∧
    (checkPrice (breakerW "open" 0 0) "P" 2 40 =
      checkPrice { breakerW "open" 0 0 with states := (aset (breakerW "open" 0 0).states "P"
        { breakerStateW "open" 0 0 with state := "half-open", failures := 0 }) } "P" 2 40 ∧
     (checkPrice (breakerW "open" 0 0) "P" 2 40).2 =
      (checkPrice { breakerW "open" 0 0 with states := (aset (breakerW "open" 0 0).states "P"
        { breakerStateW "open" 0 0 with state := "closed", failures := 0 }) } "P" 2 40).2) :=
  ⟨C4_breaker_safety.1 (breakerW "closed" 0 0) "P" (breakerStateW "closed" 0 0)
      2 1 2 2 2 3 2 4 2 5 (by simp [breakerW, alookup]) rfl rfl (by simp [breakerStateW])
      (by
        intro c hc
        simp only [List.mem_cons, List.not_mem_nil, or_false] at hc
        rcases hc with h | h | h | h | h <;> subst h <;>
          norm_num [priceDeviation, calculateAverage, effectiveThreshold, breakerW,
            breakerStateW]),
   C4_breaker_safety.2.1 (breakerW "open" 0 0) "P" 2 10 (breakerStateW "open" 0 0)
      (by simp [breakerW, alookup]) rfl (by norm_num [breakerStateW]),
   C4_breaker_safety.2.2 (breakerW "open" 0 0) "P" 2 40 (breakerStateW "open" 0 0)
      (by simp [breakerW, alookup]) rfl (by norm_num [breakerStateW])⟩

/-- Witness instantiating `C5_half_open_amended` on a concrete `half-open`
breaker. -/
theorem C5_half_open_amended_witness :
    checkPrice (breakerW "half-open" 0 0) "P" 2 100 =
      ({ breakerW "half-open" 0 0 with states := (aset (breakerW "half-open" 0 0).states "P"
          (if (breakerStateW "half-open" 0 0).failures + 1 ≥ defaultFailureLimit then
            { breakerStateW "half-open" 0 0 with
                failures := (breakerStateW "half-open" 0 0).failures + 1
                state := "open", openedAt := 100 }
          else { breakerStateW "half-open" 0 0 with
                failures := (breakerStateW "half-open" 0 0).failures + 1 })) },
       some .circuitBreakerOpen) :=
  (C5_half_open_amended (breakerW "half-open" 0 0) "P" 2 100 (breakerStateW "half-open" 0 0)
    (by simp [breakerW, alookup]) rfl (by simp [breakerStateW])
    (by norm_num [priceDeviation, calculateAverage, effectiveThreshold, breakerW,
      breakerStateW])).1

/-- Witness instantiating `C10_closed_reject_no_record` on a concrete
closed breaker below the failure limit. -/
theorem C10_closed_reject_no_record_witness :
    checkPrice (breakerW "closed" 0 0) "P" 2 7 =
      ({ breakerW "closed" 0 0 with states := (aset (breakerW "closed" 0 0).states "P"
          { breakerStateW "closed" 0 0 with
              failures := (breakerStateW "closed" 0 0).failures + 1 }) },
       some .circuitBreakerOpen) :=
  (C10_closed_reject_no_record (breakerW "closed" 0 0) "P" 2 7 (breakerStateW "closed" 0 0)
    (by simp [breakerW, alookup]) rfl (by simp [breakerStateW])
    (by norm_num [priceDeviation, calculateAverage, effectiveThreshold, breakerW,
      breakerStateW])
    (by norm_num [breakerStateW, defaultFailureLimit])).1

/-! ### In-memory KV store (`internal/kv`, `MemoryStore`) -/

/-- Model of the sentinel errors in the kv package (`invalidCounter` stands
for the `fmt.Errorf("invalid counter value: %w", err)` path). -/
inductive KVErr where
  | keyTooLong
  | keyEmpty
  | namespaceEmpty
  | valueTooLarge
  | memoryLimit
  | keyNotFound
  | namespaceQuota
  | invalidCounter
deriving DecidableEq, Repr

/-- Byte length of a Go string (`len` on a string counts UTF-8 bytes). -/
def utf8Len (s : String) : ℕ := s.utf8ByteSize

/-- Model of a `kv.entry`. The `lruNode` pointer is represented by
membership of the full key in the store's LRU list. -/
structure KVEntry where
  namespc : String
  key : String
  value : String
  expiresAt : Option ℚ
  size : ℤ
deriving DecidableEq, Repr

/-- Model of `kv.MemoryStore`. The LRU list holds full keys, most recently
used first (`list.PushFront`). -/
structure MemoryStore where
  data : List (String × KVEntry)
  lru : List String
  maxBytes : ℤ
  currentBytes : ℤ
  maxKeyLength : ℕ
  maxValueSize : ℕ
  evictions : ℤ
  hits : ℤ
  misses : ℤ
deriving DecidableEq, Repr

/-- Model of `NewMemoryStoreWithConfig` (fresh store). -/
def newMemoryStoreWithConfig (maxBytes : ℤ) (maxKeyLength maxValueSize : ℕ) : MemoryStore :=
  { data := [], lru := [], maxBytes := maxBytes, currentBytes := 0
    maxKeyLength := maxKeyLength, maxValueSize := maxValueSize
    evictions := 0, hits := 0, misses := 0 }

/-- Model of `NewMemoryStore` with the package defaults
(512 MiB, key 256, value 1 MiB). -/
def newMemoryStore : MemoryStore :=
  newMemoryStoreWithConfig (512 * 1024 * 1024) 256 (1024 * 1024)

/-- Fixed per-namespace key-count quotas (`namespaceQuotas`). -/
def namespaceQuotas : List (String × ℤ) :=
  [("quotes", 10000), ("rate_limits", 100000), ("circuit_breaker", 1000), ("system", 128)]

/-- Model of `MemoryStore.makeKey`. -/
def makeKey (namespc key : String) : String := namespc ++ ":" ++ key

/-- Expiry test used throughout the store:
`!e.expiresAt.IsZero() && time.Now().After(e.expiresAt)` (zero time is
`none`). -/
def isExpired (e : KVEntry) (now : ℚ) : Bool :=
  match e.expiresAt with
  | none => false
  | some t => decide (now > t)

/-- Model of `MemoryStore.validate`. -/
def kvValidate (s : MemoryStore) (namespc key value : String) : Option KVErr :=
  if namespc = "" then some .namespaceEmpty
  else if key = "" then some .keyEmpty
  else if utf8Len key > s.maxKeyLength then some .keyTooLong
  else if utf8Len value > s.maxValueSize then some .valueTooLarge
  else none

/-- Live key count of a namespace, as iterated by `checkNamespaceQuota`. -/
def countLive (data : List (String × KVEntry)) (namespc : String) (now : ℚ) : ℤ :=
  ((data.filter (fun p => p.2.namespc = namespc ∧ ¬ isExpired p.2 now)).length : ℤ)

/-- Model of `MemoryStore.checkNamespaceQuota`. -/
def checkNamespaceQuota (s : MemoryStore) (namespc : String) (now : ℚ) : Option KVErr :=
  match alookup namespaceQuotas namespc with
  | none => none
  | some quota => if countLive s.data namespc now ≥ quota then some .namespaceQuota else none

/-- Model of `MemoryStore.deleteEntryLocked`: unlink from the LRU (a no-op
when the entry's node is no longer in the list), remove from the map, and
subtract the recorded size. -/
def deleteEntryLocked (s : MemoryStore) (fullKey : String) (e : KVEntry) : MemoryStore :=
  { s with
    lru := s.lru.erase fullKey,
    data := adel s.data fullKey,
    currentBytes := s.currentBytes - e.size }

/-- Model of `MemoryStore.evictOldest`: drop the LRU tail entry; `none`
models the `false` return (nothing evictable). -/
def evictOldest (s : MemoryStore) : Option MemoryStore :=
  match s.lru.getLast? with
  | none => none
  | some fullKey =>
    match alookup s.data fullKey with
    | some e => some { deleteEntryLocked s fullKey e with evictions := s.evictions + 1 }
    | none => none

theorem getLast?_mem {α : Type} [DecidableEq α] (l : List α) (a : α)
    (h : l.getLast? = some a) : a ∈ l := by
  induction l with
  | nil => simp [List.getLast?] at h
  | cons x rest ih =>
    cases hr : rest with
    | nil => simp [hr, List.getLast?] at h; simp [h]
    | cons y t =>
      rw [hr] at ih
      have : (x :: y :: t).getLast? = (y :: t).getLast? := by
        simp [List.getLast?_cons_cons]
      rw [hr, this] at h
      exact List.mem_cons_of_mem x (ih h)

theorem evictOldest_lru_shrinks (s s2 : MemoryStore) (h : evictOldest s = some s2) :
    s2.lru.length < s.lru.length := by
  unfold evictOldest at h
  split at h
  · simp at h
  · rename_i fullKey hl
    split at h
    · rename_i e he
      simp only [Option.some.injEq] at h
      subst h
      have hm : fullKey ∈ s.lru := getLast?_mem _ _ hl
      have h2 := List.length_erase_of_mem hm
      have h3 : 0 < s.lru.length := List.length_pos.mpr (List.ne_nil_of_mem hm)
      show (s.lru.erase fullKey).length < s.lru.length
      omega
    · simp at h

/-- Fuelled form of the eviction loop in `Set`/`setLocked`:
`for currentBytes + entrySize > maxBytes { if !evictOldest() { fail } }`.
The returned flag is `false` on `ErrMemoryLimit`; the returned store keeps
all mutations performed before the failure. Each successful eviction
shortens the LRU list, so any fuel above the LRU length is enough
(`evictLoopF_congr`). -/
def evictLoopF : ℕ → MemoryStore → ℤ → MemoryStore × Bool
  | 0, s, _ => (s, false)
  | n + 1, s, entrySize =>
    if s.currentBytes + entrySize > s.maxBytes then
      match evictOldest s with
      | none => (s, false)
      | some s2 => evictLoopF n s2 entrySize
    else (s, true)

theorem evictLoopF_congr :
    ∀ (n m : ℕ) (s : MemoryStore) (es : ℤ), s.lru.length < n → s.lru.length < m →
      evictLoopF n s es = evictLoopF m s es := by
  intro n
  induction n with
  | zero => intro m s es hn; omega
  | succ n ih =>
    intro m s es hn hm
    cases m with
    | zero => omega
    | succ m =>
      simp only [evictLoopF]
      by_cases hc : s.currentBytes + es > s.maxBytes
      · simp only [if_pos hc]
        cases he : evictOldest s with
        | none => rfl
        | some s2 =>
          have hlen := evictOldest_lru_shrinks s s2 he
          exact ih m s2 es (by omega) (by omega)
      · simp only [if_neg hc]

/-- Entry size computed by `Set`/`setLocked`:
`len(fullKey) + len(value) + 64`. -/
def entrySizeOf (namespc key value : String) : ℤ :=
  (utf8Len (makeKey namespc key) : ℤ) + (utf8Len value : ℤ) + 64

/-- The entry built by `Set`/`setLocked` (`expiresAt` stays zero for a
non-positive ttl). -/
def newKVEntry (namespc key value : String) (ttl now : ℚ) : KVEntry :=
  { namespc := namespc, key := key, value := value,
    expiresAt := if ttl > 0 then some (now + ttl) else none,
    size := entrySizeOf namespc key value }

/-- Model of `MemoryStore.setLocked` (also the body of `Set` after its
validation and quota checks): subtract and unlink an existing entry, evict
until the new entry fits, then insert at the LRU front. On failure the
partially mutated store is returned, exactly as the source leaves it. -/
def setLocked (s : MemoryStore) (namespc key value : String) (ttl now : ℚ) :
    MemoryStore × Option KVErr :=
  let fullKey := makeKey namespc key
  let entrySize : ℤ := entrySizeOf namespc key value
  let s1 := match alookup s.data fullKey with
    | some existing =>
      { s with currentBytes := s.currentBytes - existing.size, lru := s.lru.erase fullKey }
    | none => s
  match evictLoopF (s1.lru.length + 1) s1 entrySize with
  | (s2, false) => (s2, some .memoryLimit)
  | (s2, true) =>
    ({ s2 with
      data := aset s2.data fullKey (newKVEntry namespc key value ttl now),
      lru := fullKey :: s2.lru,
      currentBytes := s2.currentBytes + entrySize }, none)

/-- Model of `MemoryStore.Set`: validation, namespace quota, then the
shared insert/evict body. -/
def kvSet (s : MemoryStore) (namespc key value : String) (ttl now : ℚ) :
    MemoryStore × Option KVErr :=
  match kvValidate s namespc key value with
  | some e => (s, some e)
  | none =>
    match checkNamespaceQuota s namespc now with
    | some e => (s, some e)
    | none => setLocked s namespc key value ttl now

/-- Model of `list.MoveToFront` keyed by value: a no-op when the key's node
is no longer in the list. -/
def moveToFront (lru : List String) (fullKey : String) : List String :=
  if fullKey ∈ lru then fullKey :: lru.erase fullKey else lru

/-- Model of `MemoryStore.Get` (lazy expiration, LRU touch, hit/miss
counters). -/
def kvGet (s : MemoryStore) (namespc key : String) (now : ℚ) :
    MemoryStore × Option String :=
  if namespc = "" ∨ key = "" then ({ s with misses := s.misses + 1 }, none)
  else
    let fullKey := makeKey namespc key
    match alookup s.data fullKey with
    | none => ({ s with misses := s.misses + 1 }, none)
    | some e =>
      if isExpired e now then
        ({ deleteEntryLocked s fullKey e with misses := s.misses + 1 }, none)
      else
        ({ s with lru := moveToFront s.lru fullKey, hits := s.hits + 1 }, some e.value)

/-- Model of `MemoryStore.Delete`. -/
def kvDelete (s : MemoryStore) (namespc key : String) : MemoryStore × Option KVErr :=
  if namespc = "" ∨ key = "" then (s, some .keyEmpty)
  else
    let fullKey := makeKey namespc key
    match alookup s.data fullKey with
    | none => (s, some .keyNotFound)
    | some e => (deleteEntryLocked s fullKey e, none)

/-- Model of Go `strconv.ParseInt(s, 10, 64)`. -/
def goParseInt64 (str : String) : Option ℤ :=
  let signAndDigits : ℤ × List Char := match str.data with
    | '+' :: r => (1, r)
    | '-' :: r => (-1, r)
    | r => (1, r)
  if signAndDigits.2 = [] then none
  else if signAndDigits.2.all (fun c => decide ('0' ≤ c) && decide (c ≤ '9')) then
    let v : ℤ := signAndDigits.1 *
      (signAndDigits.2.foldl (fun n c => n * 10 + ((c.toNat : ℤ) - ('0'.toNat : ℤ))) 0)
    if -(2 ^ 63) ≤ v ∧ v ≤ 2 ^ 63 - 1 then some v else none
  else none

/-- Wrap-around of Go `int64` addition. -/
def int64wrap (v : ℤ) : ℤ := (v + 2 ^ 63) % 2 ^ 64 - 2 ^ 63

/-- Model of `MemoryStore.IncrementRateLimit`: reset to 1 on absence or
expiry, otherwise parse, increment and store; returns the new count. -/
def incrementRateLimit (s : MemoryStore) (partnerID : String) (ttl now : ℚ) :
    MemoryStore × Option KVErr × Option ℤ :=
  if partnerID = "" then (s, some .keyEmpty, none)
  else
    let fullKey := makeKey "rate_limits" partnerID
    match alookup s.data fullKey with
    | none =>
      match setLocked s "rate_limits" partnerID "1" ttl now with
      | (s2, some e) => (s2, some e, none)
      | (s2, none) => (s2, none, some 1)
    | some e =>
      if isExpired e now then
        match setLocked (deleteEntryLocked s fullKey e) "rate_limits" partnerID "1" ttl now with
        | (s2, some err) => (s2, some err, none)
        | (s2, none) => (s2, none, some 1)
      else
        match goParseInt64 e.value with
        | none => (s, some .invalidCounter, none)
        | some count =>
          let c := int64wrap (count + 1)
          match setLocked s "rate_limits" partnerID (toString c) ttl now with
          | (s2, some err) => (s2, some err, none)
          | (s2, none) => (s2, none, some c)

/-- Model of `MemoryStore.cleanup`: purge every expired entry in one pass. -/
def kvCleanup (s : MemoryStore) (now : ℚ) : MemoryStore :=
  (s.data.filter (fun p => isExpired p.2 now)).foldl
    (fun acc p => deleteEntryLocked acc p.1 p.2) s

/-- Sum of the recorded sizes of the live entries (those a `Get` can still
return): non-expired entries present in the map. -/
def liveBytes (s : MemoryStore) (now : ℚ) : ℤ :=
  (s.data.filter (fun p => ¬ isExpired p.2 now)).foldl (fun acc p => acc + p.2.size) 0

/-- Store configured as `NewMemoryStoreWithConfig(100, 256, 1 MiB)`, used
to exhibit the byte-accounting bug in `Set`'s failure path. -/
def kvStoreW : MemoryStore := newMemoryStoreWithConfig 100 256 1048576

/-- First step: `Set("n", "k", "v", 0)` — succeeds, entry size 68. -/
def kvW1 : MemoryStore × Option KVErr := kvSet kvStoreW "n" "k" "v" 0 0

/-- Second step: replace `n:k` with a 40-byte value (entry size 107 >
`maxBytes`) — fails with `MemoryLimit` after detaching the old entry. -/
def kvW2 : MemoryStore × Option KVErr :=
  kvSet kvW1.1 "n" "k" "0123456789012345678901234567890123456789" 0 1

/-- Third step: delete `n:k` — subtracts the detached entry's size again. -/
def kvW3 : MemoryStore × Option KVErr := kvDelete kvW2.1 "n" "k"

/-- Claim C6 fails on the code: after a failed replacing `Set`, the old
entry is still live (a `Get` returns it) but its size has been subtracted
from `current_bytes`, so `current_bytes = 0` while the live entries sum to
68; the subsequent `Delete` then drives `current_bytes` to `-68 < 0`. -/
theorem C6_current_bytes_bug :
    kvW1.2 = none ∧
    kvW2.2 = some .memoryLimit ∧
    (kvGet kvW2.1 "n" "k" 2).2 = some "v" ∧
    kvW2.1.currentBytes = 0 ∧
    liveBytes kvW2.1 2 = 68 ∧
    kvW3.2 = none ∧
    kvW3.1.currentBytes = -68 := by
  have e1 : ("n:k" : String).utf8ByteSize = 3 := rfl
  have e2 : ("v" : String).utf8ByteSize = 1 := rfl
  have e3 : ("k" : String).utf8ByteSize = 1 := rfl
  have e4 : ("0123456789012345678901234567890123456789" : String).utf8ByteSize = 40 := rfl
  refine ⟨?_, ?_, ?_, ?_, ?_, ?_, ?_⟩ <;>
    simp [kvW1, kvW2, kvW3, kvStoreW, kvSet, kvValidate, checkNamespaceQuota, setLocked,
      evictLoopF, evictOldest, deleteEntryLocked, kvGet, kvDelete, newMemoryStoreWithConfig,
      entrySizeOf, newKVEntry,
      makeKey, utf8Len, alookup, aset, adel, namespaceQuotas, countLive, isExpired,
      liveBytes, moveToFront, e1, e2, e3, e4]

/-- The 128 keys `k0 … k127` filling the `system` namespace quota. -/
def sysKeys : List String := (List.range 128).map (fun i => "k" ++ toString i)

/-- Fresh default store after `Set("system", kᵢ, "v", 0)` for each key. -/
def kvQuotaStore : MemoryStore :=
  sysKeys.foldl (fun s k => (kvSet s "system" k "v" 0 0).1) newMemoryStore

theorem kvValidate_ne_quota (s : MemoryStore) (ns key value : String) :
    kvValidate s ns key value ≠ some .namespaceQuota := by
  unfold kvValidate
  split_ifs <;> simp

theorem setLocked_err_cases (s : MemoryStore) (ns key value : String) (ttl now : ℚ) :
    (setLocked s ns key value ttl now).2 = none ∨
    (setLocked s ns key value ttl now).2 = some .memoryLimit := by
  simp only [setLocked]
  split <;> simp

/-- Claim C7 as amended: the namespace-quota check runs before the
existing-entry check, so (1) a `Set` into a namespace whose live key count
has reached its quota fails with `NamespaceQuota` and leaves the store
unchanged — even when it would merely replace an existing key; (2) a `Set`
never fails with `NamespaceQuota` when the namespace is below its quota (or
has none); (3) below quota, a `Set` replacing an existing entry that fits
without eviction succeeds, replaces the entry in place and keeps the byte
count consistent (`current_bytes - old.size + new_size`). -/
theorem C7_namespace_quota_amended :
    (∀ (s : MemoryStore) (ns key value : String) (ttl now : ℚ) (q : ℤ),
      kvValidate s ns key value = none →
      alookup namespaceQuotas ns = some q →
      countLive s.data ns now ≥ q →
      kvSet s ns key value ttl now = (s, some .namespaceQuota)) ∧
    (∀ (s : MemoryStore) (ns key value : String) (ttl now : ℚ),
      (∀ q, alookup namespaceQuotas ns = some q → countLive s.data ns now < q) →
      (kvSet s ns key value ttl now).2 ≠ some .namespaceQuota) ∧
    (∀ (s : MemoryStore) (ns key value : String) (ttl now : ℚ) (e : KVEntry),
      kvValidate s ns key value = none →
      checkNamespaceQuota s ns now = none →
      alookup s.data (makeKey ns key) = some e →
      ¬ (s.currentBytes - e.size + entrySizeOf ns key value > s.maxBytes) →
      kvSet s ns key value ttl now =
        ({ s with
          data := aset s.data (makeKey ns key) (newKVEntry ns key value ttl now),
          lru := makeKey ns key :: s.lru.erase (makeKey ns key),
          currentBytes := s.currentBytes - e.size + entrySizeOf ns key value }, none)) := by
  refine ⟨?_, ?_, ?_⟩
  · intro s ns key value ttl now q hv hq hcount
    simp only [kvSet, checkNamespaceQuota, hv, hq]
    rw [if_pos hcount]
  · intro s ns key value ttl now hbelow
    unfold kvSet
    cases hv : kvValidate s ns key value with
    | some e =>
      have := kvValidate_ne_quota s ns key value
      rw [hv] at this
      simpa using fun h => this (by rw [h])
    | none =>
      have hq : checkNamespaceQuota s ns now = none := by
        unfold checkNamespaceQuota
        cases hqq : alookup namespaceQuotas ns with
        | none => rfl
        | some q =>
          simp only [hqq]
          rw [if_neg (not_le.mpr (hbelow q hqq))]
      simp only [kvSet, hv, hq]
      rcases setLocked_err_cases s ns key value ttl now with h | h <;> rw [h] <;> simp
  · intro s ns key value ttl now e hv hq he hfit
    simp only [kvSet, setLocked, hv, hq, he]
    have hone : ∀ (dataL : List (String × KVEntry)) (lruL : List String)
        (maxB curB : ℤ) (mkl mvs : ℕ) (ev hi mi : ℤ) (es : ℤ),
        ¬ (curB + es > maxB) →
        evictLoopF (lruL.length + 1) ⟨dataL, lruL, maxB, curB, mkl, mvs, ev, hi, mi⟩ es =
          (⟨dataL, lruL, maxB, curB, mkl, mvs, ev, hi, mi⟩, true) := by
      intro dataL lruL maxB curB mkl mvs ev hi mi es hno
      simp only [evictLoopF]
      rw [if_neg hno]
    rw [hone s.data (s.lru.erase (makeKey ns key)) s.maxBytes (s.currentBytes - e.size)
      s.maxKeyLength s.maxValueSize s.evictions s.hits s.misses (entrySizeOf ns key value) hfit]

set_option maxRecDepth 100000 in
set_option maxHeartbeats 12000000 in
/-- Counterexample to claim C7 as stated: in a fresh default store, fill
the `system` namespace to its quota of 128 keys; a `Set` that merely
replaces the existing live key `k0` then fails with `NamespaceQuota`,
although it adds no new key. -/
theorem C7_counterexample :
    (alookup kvQuotaStore.data (makeKey "system" "k0")).isSome = true ∧
    (kvSet kvQuotaStore "system" "k0" "w" 0 0).2 = some KVErr.namespaceQuota := by
  decide

/-- A live 68-byte entry `n:k`, for the C7 witness. -/
def kvOneEntryE : KVEntry :=
  { namespc := "n", key := "k", value := "v", expiresAt := none, size := 68 }

/-- Store holding only `kvOneEntryE`, for the C7 witness. -/
def kvOneEntry : MemoryStore :=
  { newMemoryStore with
    data := [("n:k", kvOneEntryE)],
    lru := ["n:k"],
    currentBytes := 68 }

/-- Literal store whose `system` namespace holds 128 live keys, for the
C7 witness. -/
def kvFullSystem : MemoryStore :=
  { newMemoryStore with
    data := sysKeys.map (fun k => (makeKey "system" k,
      { namespc := "system", key := k, value := "v", expiresAt := none,
        size := entrySizeOf "system" k "v" })),
    lru := (sysKeys.map (makeKey "system")).reverse,
    currentBytes := 0 }

set_option maxRecDepth 100000 in
set_option maxHeartbeats 4000000 in
/-- Witness instantiating the three parts of `C7_namespace_quota_amended`
at concrete stores. -/
theorem C7_namespace_quota_amended_witness :
    (kvSet kvFullSystem "system" "k0" "w" 0 0 = (kvFullSystem, some .namespaceQuota)) ∧
    ((kvSet newMemoryStore "system" "a" "v" 0 0).2 ≠ some .namespaceQuota) ∧
    (kvSet kvOneEntry "n" "k" "w" 0 5 =
      ({ kvOneEntry with
        data := aset kvOneEntry.data (makeKey "n" "k") (newKVEntry "n" "k" "w" 0 5),
        lru := makeKey "n" "k" :: kvOneEntry.lru.erase (makeKey "n" "k"),
        currentBytes := kvOneEntry.currentBytes - kvOneEntryE.size +
          entrySizeOf "n" "k" "w" }, none)) :=
  ⟨C7_namespace_quota_amended.1 kvFullSystem "system" "k0" "w" 0 0 128
      (by decide) (by decide) (by decide),
   C7_namespace_quota_amended.2.1 newMemoryStore "system" "a" "v" 0 0
      (by
        intro q hq
        simp [namespaceQuotas, alookup] at hq
        subst hq
        decide),
   C7_namespace_quota_amended.2.2 kvOneEntry "n" "k" "w" 0 5 kvOneEntryE
      (by decide) (by decide) (by decide) (by decide)⟩

/-! ### Quote hash (`router/hash.go`)

The Go structure `hashInput` carries the already-stringified decimal and
asset fields (`req.In.String()`, `req.Amount.String()`, …) plus the integer
fields; the model takes that structure as input. `canonicalJSON` marshals
it, re-parses the JSON into a map (numbers through `float64`) and marshals
the map, which sorts the keys. -/

/-- UTF-8 encoding of a character, as a list of byte values. -/
def utf8EncodeChar (c : Char) : List ℕ :=
  let n := c.toNat
  if n < 0x80 then [n]
  else if n < 0x800 then [0xC0 ||| (n >>> 6), 0x80 ||| (n &&& 0x3F)]
  else if n < 0x10000 then
    [0xE0 ||| (n >>> 12), 0x80 ||| ((n >>> 6) &&& 0x3F), 0x80 ||| (n &&& 0x3F)]
  else
    [0xF0 ||| (n >>> 18), 0x80 ||| ((n >>> 12) &&& 0x3F),
     0x80 ||| ((n >>> 6) &&& 0x3F), 0x80 ||| (n &&& 0x3F)]

/-- UTF-8 bytes of a string. -/
def utf8Bytes (s : String) : List ℕ := (s.data.map utf8EncodeChar).join

/-- Lowercase hexadecimal digit. -/
def hexDigitChar (n : ℕ) : Char :=
  if n < 10 then Char.ofNat ('0'.toNat + n) else Char.ofNat ('a'.toNat + n - 10)

/-- Escaping of one character by Go `encoding/json` (HTML escaping on, the
`json.Marshal` default): quote, backslash, `\n` `\r` `\t`, other control
characters as `\u00xx`, `&` `<` `>` as `\u00xx`, and U+2028/U+2029. -/
def goEscapeChar (c : Char) : List Char :=
  if c = '"' then ['\\', '"']
  else if c = '\\' then ['\\', '\\']
  else if c.toNat = 10 then ['\\', 'n']
  else if c.toNat = 13 then ['\\', 'r']
  else if c = '\t' then ['\\', 't']
  else if c.toNat < 0x20 then
    ['\\', 'u', '0', '0', hexDigitChar (c.toNat / 16), hexDigitChar (c.toNat % 16)]
  else if c = '&' then ['\\', 'u', '0', '0', '2', '6']
  else if c = '<' then ['\\', 'u', '0', '0', '3', 'c']
  else if c = '>' then ['\\', 'u', '0', '0', '3', 'e']
  else if c.toNat = 0x2028 then ['\\', 'u', '2', '0', '2', '8']
  else if c.toNat = 0x2029 then ['\\', 'u', '2', '0', '2', '9']
  else [c]

/-- Go `encoding/json` string escaping. -/
def goJSONEscape (s : String) : String := ⟨(s.data.map goEscapeChar).join⟩

/-- Fuelled base-2 logarithm (`natLog2F n n` is exact for every `n`). -/
def natLog2F : ℕ → ℕ → ℕ
  | 0, _ => 0
  | fuel + 1, n => if n ≥ 2 then natLog2F fuel (n / 2) + 1 else 0

/-- Rounding of a natural number to the nearest IEEE-754 binary64 value
(53-bit significand, ties to even); exact below `2^53`. -/
def f64roundNat (m : ℕ) : ℕ :=
  if m ≤ 2 ^ 53 then m
  else
    let k := natLog2F m m
    let e := k - 52
    let q := m / 2 ^ e
    let r := m % 2 ^ e
    if 2 * r < 2 ^ e then q * 2 ^ e
    else if 2 * r > 2 ^ e then (q + 1) * 2 ^ e
    else if q % 2 = 0 then q * 2 ^ e else (q + 1) * 2 ^ e

/-- Value of an integer after a round trip through `float64`, which is what
`json.Unmarshal` into `map[string]interface{}` does to JSON numbers. -/
def f64roundInt (v : ℤ) : ℤ :=
  if v < 0 then -(f64roundNat v.natAbs : ℤ) else (f64roundNat v.natAbs : ℤ)

/-- JSON values appearing in `hashInput`: strings and integer numbers. -/
inductive JVal where
  | str (s : String)
  | int (n : ℤ)
deriving DecidableEq, Repr

/-- Model of the `router.hashInput` struct: the stringified decimal and
asset fields together with the integer fields (`RouterBps int`,
`LedgerIndex uint32`, `TTL uint16`). -/
structure HashInput where
  inStr : String
  outStr : String
  amount : String
  routerBps : ℤ
  tradingFees : String
  estOutFee : String
  ledgerIndex : ℕ
  ttl : ℕ
deriving DecidableEq, Repr

/-- Key/value pairs of `json.Marshal(hashInput)`, in struct field order
with the struct's json tags. -/
def goMarshalPairs (h : HashInput) : List (String × JVal) :=
  [("in", .str h.inStr), ("out", .str h.outStr), ("amount", .str h.amount),
   ("router_bps", .int h.routerBps), ("trading_fees", .str h.tradingFees),
   ("est_out_fee", .str h.estOutFee), ("ledger_index", .int (h.ledgerIndex : ℤ)),
   ("ttl", .int (h.ttl : ℤ))]

/-- Effect of `json.Unmarshal` into `map[string]interface{}` followed by
re-marshalling on a single value: strings survive unchanged, numbers go
through `float64`. The re-marshalled number is printed as the shortest
round-tripping decimal; for every integer of magnitude at most `2^53 + 1`
(all values reaching this rendering in this file) that equals the exact
digits of the rounded value. -/
def jsonRoundTrip (v : JVal) : JVal :=
  match v with
  | .str s => .str s
  | .int n => .int (f64roundInt n)

/-- Byte-lexicographic strict order on character lists (UTF-8 byte order
coincides with code-point order). -/
def charListLt : List Char → List Char → Bool
  | [], [] => false
  | [], _ :: _ => true
  | _ :: _, [] => false
  | a :: as, b :: bs => if a < b then true else if b < a then false else charListLt as bs

/-- Go string `<` (byte-lexicographic), as used by `sort.Strings` and map
key marshalling. -/
def strLtB (a b : String) : Bool := charListLt a.data b.data

/-- Insertion of a pair into a key-sorted list (ascending, as
`sort.Strings` / Go map marshalling order). -/
def insertPair (p : String × JVal) : List (String × JVal) → List (String × JVal)
  | [] => [p]
  | q :: rest => if strLtB q.1 p.1 then q :: insertPair p rest else p :: q :: rest

/-- Key-sorting of the pair list. -/
def sortPairsByKey (l : List (String × JVal)) : List (String × JVal) :=
  l.foldr insertPair []

/-- Rendering of one JSON value as `json.Marshal` does. -/
def renderJVal : JVal → String
  | .str s => "\"" ++ goJSONEscape s ++ "\""
  | .int n => Int.repr n

/-- Rendering of an object from its pair list (no whitespace, keys in list
order). -/
def renderPairs (l : List (String × JVal)) : String :=
  "\x7b" ++ String.intercalate ","
    (l.map (fun p => "\"" ++ goJSONEscape p.1 ++ "\":" ++ renderJVal p.2)) ++ "\x7d"

/-- Model of `canonicalJSON` applied to a `hashInput`: marshal, re-parse
into a map (numbers through `float64`), sort the keys, marshal again. -/
def canonicalJSON (h : HashInput) : String :=
  renderPairs (sortPairsByKey ((goMarshalPairs h).map (fun p => (p.1, jsonRoundTrip p.2))))

/-- Canonical bytes: UTF-8 encoding of the canonical JSON. -/
def canonicalBytes (h : HashInput) : List ℕ := utf8Bytes (canonicalJSON h)

/-- BLAKE2b initialization vector. -/
def blakeIV : List ℕ :=
  [0x6a09e667f3bcc908, 0xbb67ae8584caa73b, 0x3c6ef372fe94f82b, 0xa54ff53a5f1d36f1,
   0x510e527fade682d1, 0x9b05688c2b3e6c1f, 0x1f83d9abfb41bd6b, 0x5be0cd19137e2179]

/-- BLAKE2b message schedule (rounds use row `r % 10`). -/
def blakeSigma : List (List ℕ) :=
  [[0, 1, 2, 3, 4, 5, 6, 7, 8, 9, 10, 11, 12, 13, 14, 15],
   [14, 10, 4, 8, 9, 15, 13, 6, 1, 12, 0, 2, 11, 7, 5, 3],
   [11, 8, 12, 0, 5, 2, 15, 13, 10, 14, 3, 6, 7, 1, 9, 4],
   [7, 9, 3, 1, 13, 12, 11, 14, 2, 6, 5, 10, 4, 0, 15, 8],
   [9, 0, 5, 7, 2, 4, 10, 15, 14, 1, 11, 12, 6, 8, 3, 13],
   [2, 12, 6, 10, 0, 11, 8, 3, 4, 13, 7, 5, 15, 14, 1, 9],
   [12, 5, 1, 15, 14, 13, 4, 10, 0, 7, 6, 3, 9, 2, 8, 11],
   [13, 11, 7, 14, 12, 1, 3, 9, 5, 0, 15, 4, 8, 6, 2, 10],
   [6, 15, 14, 9, 11, 3, 0, 8, 12, 2, 13, 7, 1, 4, 10, 5],
   [10, 2, 8, 4, 7, 6, 1, 5, 15, 11, 9, 14, 3, 12, 13, 0]]

/-- List read with default 0. -/
def lget (l : List ℕ) (i : ℕ) : ℕ := l.getD i 0

/-- Addition modulo `2^64`. -/
def add64 (a b : ℕ) : ℕ := (a + b) % 2 ^ 64

/-- Right rotation of a 64-bit word. -/
def rotr64 (x n : ℕ) : ℕ := ((x >>> n) ||| (x <<< (64 - n))) % 2 ^ 64

/-- BLAKE2b mixing function G on the work vector. -/
def blakeG (v : List ℕ) (a b c d x y : ℕ) : List ℕ :=
  let va := add64 (add64 (lget v a) (lget v b)) x
  let vd := rotr64 (Nat.xor (lget v d) va) 32
  let vc := add64 (lget v c) vd
  let vb := rotr64 (Nat.xor (lget v b) vc) 24
  let va2 := add64 (add64 va vb) y
  let vd2 := rotr64 (Nat.xor vd va2) 16
  let vc2 := add64 vc vd2
  let vb2 := rotr64 (Nat.xor vb vc2) 63
  (((v.set a va2).set b vb2).set c vc2).set d vd2

/-- One BLAKE2b round with schedule row `s`. -/
def blakeRound (m : List ℕ) (v : List ℕ) (s : List ℕ) : List ℕ :=
  let v1 := blakeG v 0 4 8 12 (lget m (lget s 0)) (lget m (lget s 1))
  let v2 := blakeG v1 1 5 9 13 (lget m (lget s 2)) (lget m (lget s 3))
  let v3 := blakeG v2 2 6 10 14 (lget m (lget s 4)) (lget m (lget s 5))
  let v4 := blakeG v3 3 7 11 15 (lget m (lget s 6)) (lget m (lget s 7))
  let v5 := blakeG v4 0 5 10 15 (lget m (lget s 8)) (lget m (lget s 9))
  let v6 := blakeG v5 1 6 11 12 (lget m (lget s 10)) (lget m (lget s 11))
  let v7 := blakeG v6 2 7 8 13 (lget m (lget s 12)) (lget m (lget s 13))
  blakeG v7 3 4 9 14 (lget m (lget s 14)) (lget m (lget s 15))

/-- Little-endian 64-bit word from up to eight bytes. -/
def leWord (bytes : List ℕ) : ℕ := bytes.foldr (fun b acc => b + 2 ^ 8 * acc) 0

/-- The sixteen message words of a 128-byte block. -/
def blockWords (block : List ℕ) : List ℕ :=
  (List.range 16).map (fun i => leWord ((block.drop (8 * i)).take 8))

/-- BLAKE2b compression function (message block `m` as 16 words, byte
counter `t`, final-block flag). -/
def blakeCompress (h : List ℕ) (m : List ℕ) (t : ℕ) (last : Bool) : List ℕ :=
  let v0 := h ++ blakeIV
  let v1 := v0.set 12 (Nat.xor (lget v0 12) (t % 2 ^ 64))
  let v2 := v1.set 13 (Nat.xor (lget v1 13) (t / 2 ^ 64 % 2 ^ 64))
  let v3 := if last then v2.set 14 (Nat.xor (lget v2 14) (2 ^ 64 - 1)) else v2
  let vf := (List.range 12).foldl (fun acc r => blakeRound m acc (blakeSigma.getD (r % 10) [])) v3
  (List.range 8).map (fun i => Nat.xor (lget h i) (Nat.xor (lget vf i) (lget vf (i + 8))))

/-- Block loop of BLAKE2b: full blocks with a running byte counter, then
the zero-padded final block flagged last. The fuel is an upper bound on the
number of blocks (`length / 128 + 1` at the call site always suffices). -/
def blake2bBlocks : ℕ → List ℕ → List ℕ → ℕ → List ℕ
  | 0, h, _, _ => h
  | fuel + 1, h, msg, t =>
    if msg.length ≤ 128 then
      blakeCompress h (blockWords (msg ++ List.replicate (128 - msg.length) 0))
        (t + msg.length) true
    else
      blake2bBlocks fuel (blakeCompress h (blockWords (msg.take 128)) (t + 128) false)
        (msg.drop 128) (t + 128)

/-- Little-endian bytes of a 64-bit word. -/
def leBytes (w : ℕ) : List ℕ := (List.range 8).map (fun j => w / 2 ^ (8 * j) % 256)

/-- BLAKE2b-256 (unkeyed, 32-byte digest), modelling
`golang.org/x/crypto/blake2b.Sum256` per RFC 7693. -/
def blake2b256 (msg : List ℕ) : List ℕ :=
  let h0 := blakeIV.set 0 (Nat.xor (lget blakeIV 0) 0x01010020)
  let hf := blake2bBlocks (msg.length / 128 + 1) h0 msg 0
  ((List.range 4).map (fun i => leBytes (lget hf i))).join

/-- Model of `ComputeQuoteHash` from the `hashInput` fields onward:
blake2b-256 of the canonical JSON bytes. -/
def computeQuoteHash (h : HashInput) : List ℕ := blake2b256 (canonicalBytes h)

set_option maxRecDepth 100000 in
/-- BLAKE2b-256 known-answer check (RFC 7693 test vector for "abc"). -/
theorem blake2b256_abc :
    blake2b256 (utf8Bytes "abc") =
      [0xbd, 0xdd, 0x81, 0x3c, 0x63, 0x42, 0x39, 0x72, 0x31, 0x71, 0xef, 0x3f,
       0xee, 0x98, 0x57, 0x9b, 0x94, 0x96, 0x4e, 0x3b, 0xb1, 0xcb, 0x3e, 0x42,
       0x72, 0x62, 0xc8, 0xc0, 0x68, 0xd5, 0x23, 0x19] := by decide

/-- The canonical serialization as worded by specification §6.1: a JSON
object whose keys appear in the order `amount, est_out_fee, in,
ledger_index, out, router_bps, trading_fees, ttl`, decimal fields as
strings, `ledger_index`, `router_bps` and `ttl` as JSON numbers carrying
the exact field values. -/
def specCanonicalJSON (h : HashInput) : String :=
  "\x7b\"amount\":\"" ++ goJSONEscape h.amount ++
  "\",\"est_out_fee\":\"" ++ goJSONEscape h.estOutFee ++
  "\",\"in\":\"" ++ goJSONEscape h.inStr ++
  "\",\"ledger_index\":" ++ Nat.repr h.ledgerIndex ++
  ",\"out\":\"" ++ goJSONEscape h.outStr ++
  "\",\"router_bps\":" ++ Int.repr h.routerBps ++
  ",\"trading_fees\":\"" ++ goJSONEscape h.tradingFees ++
  "\",\"ttl\":" ++ Nat.repr h.ttl ++ "\x7d"

theorem f64roundNat_small (m : ℕ) (hm : m ≤ 2 ^ 53) : f64roundNat m = m := by
  unfold f64roundNat
  rw [if_pos hm]

theorem f64roundInt_small (v : ℤ) (hv : v.natAbs ≤ 2 ^ 53) : f64roundInt v = v := by
  unfold f64roundInt
  rw [f64roundNat_small _ hv]
  split_ifs with h <;> omega

theorem int_repr_coe_nat (n : ℕ) : Int.repr (n : ℤ) = Nat.repr n := rfl

theorem string_data_append (a b : String) : (a ++ b).data = a.data ++ b.data := rfl

set_option maxRecDepth 100000 in
set_option maxHeartbeats 4000000 in
/-- Claim C1 as amended: whenever `|router_bps| ≤ 2^53` (the
`ledger_index` and `ttl` fields always fit by their unsigned types), the
canonical bytes are exactly the UTF-8 JSON object with the eight keys in
the order `amount, est_out_fee, in, ledger_index, out, router_bps,
trading_fees, ttl` and the exact field values — decimal fields as strings
and the three integers as JSON numbers — and the hash is blake2b-256 of
those bytes; determinism is immediate because the computation is a pure
function of the eight fields. -/
theorem C1_quote_hash_amended (h : HashInput)
    (hrb : h.routerBps.natAbs ≤ 2 ^ 53) (hli : h.ledgerIndex < 2 ^ 32)
    (httl : h.ttl < 2 ^ 16) :
    canonicalJSON h = specCanonicalJSON h ∧
    computeQuoteHash h = blake2b256 (utf8Bytes (specCanonicalJSON h)) := by
  have hr : f64roundInt h.routerBps = h.routerBps := f64roundInt_small _ hrb
  have hl : f64roundInt (h.ledgerIndex : ℤ) = (h.ledgerIndex : ℤ) := by
    refine f64roundInt_small _ ?_
    have : (h.ledgerIndex : ℤ).natAbs = h.ledgerIndex := rfl
    rw [this]
    calc h.ledgerIndex ≤ 2 ^ 32 := le_of_lt hli
      _ ≤ 2 ^ 53 := by norm_num
  have ht : f64roundInt (h.ttl : ℤ) = (h.ttl : ℤ) := by
    refine f64roundInt_small _ ?_
    have : (h.ttl : ℤ).natAbs = h.ttl := rfl
    rw [this]
    calc h.ttl ≤ 2 ^ 16 := le_of_lt httl
      _ ≤ 2 ^ 53 := by norm_num
  have hmain : canonicalJSON h = specCanonicalJSON h := by
    have hsort : canonicalJSON h = renderPairs
        [("amount", .str h.amount), ("est_out_fee", .str h.estOutFee),
         ("in", .str h.inStr), ("ledger_index", .int (f64roundInt (h.ledgerIndex : ℤ))),
         ("out", .str h.outStr), ("router_bps", .int (f64roundInt h.routerBps)),
         ("trading_fees", .str h.tradingFees), ("ttl", .int (f64roundInt (h.ttl : ℤ)))] := rfl
    rw [hsort, hr, hl, ht]
    have k1 : goJSONEscape "amount" = "amount" := rfl
    have k2 : goJSONEscape "est_out_fee" = "est_out_fee" := rfl
    have k3 : goJSONEscape "in" = "in" := rfl
    have k4 : goJSONEscape "ledger_index" = "ledger_index" := rfl
    have k5 : goJSONEscape "out" = "out" := rfl
    have k6 : goJSONEscape "router_bps" = "router_bps" := rfl
    have k7 : goJSONEscape "trading_fees" = "trading_fees" := rfl
    have k8 : goJSONEscape "ttl" = "ttl" := rfl
    simp only [renderPairs, List.map_cons, List.map_nil, renderJVal, k1, k2, k3, k4, k5,
      k6, k7, k8, int_repr_coe_nat, String.intercalate, String.intercalate.go,
      specCanonicalJSON]
    apply String.ext
    simp [string_data_append]
  exact ⟨hmain, by rw [computeQuoteHash, canonicalBytes, hmain]⟩

/-- Concrete input with `router_bps = 2^53 + 1`, refuting claim C1 as
stated. -/
def hashInputCE : HashInput :=
  { inStr := "XRP", outStr := "USD.rI", amount := "100",
    routerBps := 9007199254740993, tradingFees := "0.3", estOutFee := "0",
    ledgerIndex := 12345, ttl := 100 }

set_option maxRecDepth 200000 in
set_option maxHeartbeats 8000000 in
/-- Counterexample to claim C1 as stated: at `router_bps = 2^53 + 1` the
canonical bytes carry the float64-rounded number `9007199254740992`, not
the field value, so they differ from the JSON encoding of the eight fields;
consequently `router_bps = 2^53` and `2^53 + 1` produce byte-identical
canonical JSON and the same quote hash. -/
theorem C1_counterexample :
    canonicalJSON hashInputCE ≠ specCanonicalJSON hashInputCE ∧
    canonicalJSON hashInputCE =
      canonicalJSON { hashInputCE with routerBps := 9007199254740992 } ∧
    computeQuoteHash hashInputCE =
      computeQuoteHash { hashInputCE with routerBps := 9007199254740992 } := by
  refine ⟨by decide, by decide, by decide⟩

/-- Concrete in-range input for the C1 witness. -/
def hashInputW : HashInput :=
  { inStr := "XRP", outStr := "USD.rI", amount := "100", routerBps := 20,
    tradingFees := "0.3", estOutFee := "0.1", ledgerIndex := 12345, ttl := 100 }

set_option maxRecDepth 100000 in
set_option maxHeartbeats 4000000 in
/-- Witness instantiating `C1_quote_hash_amended` at a concrete in-range
input. -/
theorem C1_quote_hash_amended_witness :
    canonicalJSON hashInputW = specCanonicalJSON hashInputW ∧
    computeQuoteHash hashInputW = blake2b256 (utf8Bytes (specCanonicalJSON hashInputW)) :=
  C1_quote_hash_amended hashInputW (by decide) (by decide) (by decide)

end Lucendex

